import Mathlib

/-!
AgendaQuadra: court-booking reservation engine

A shallow embedding of the booking logic of `src/app_quadra_horarios.jsx`:
the slot calendar (`timeSlots`), the live snapshot map of `SchedulerScreen`,
the slot classification used for rendering, the commit performed by
`PaymentModal.handleProcessPayment`, the cancellation performed by
`handleDeleteBooking`, the revenue totals of `AdminDashboard`, the selection
handlers and the own-bookings list of `SchedulerScreen`, the total of a
selection, and the role lookup and routing of `App`.

Modelling conventions.
* JavaScript strings are `String`; the numbers that occur are hours (`Nat`)
  and prices, which are dyadic rationals and are kept exact in `ℚ`.
* The Firestore collection is a list of documents (`Store`); `addDoc` and
  `deleteDoc` are explicit state transformers.  Whether a write succeeds,
  which identifier the store assigns and the value of `new Date()` are
  inputs of the model.
* A JavaScript `Map` is an insertion-ordered association list.
* `localeCompare` is supplied by the host and is an input of the model.
-/

namespace AgendaQuadra

/-! ## Configuration constants (source lines 31-33) -/

/-- Source: `const PRECO_POR_BLOCO_30_MIN = 135 / 2`. -/
def PRECO_POR_BLOCO_30_MIN : ℚ := 135 / 2

/-- Source: `const HORA_INICIO = 8`. -/
def HORA_INICIO : Nat := 8

/-- Source: `const HORA_FIM = 22`. -/
def HORA_FIM : Nat := 22

/-! ## Slot calendar (source lines 298-306) -/

/-- JavaScript `s.padStart(targetLength, c)` for a one-character pad string. -/
def padStart (s : String) (targetLength : Nat) (c : Char) : String :=
  String.mk (List.replicate (targetLength - s.length) c) ++ s

/-- The two labels pushed by one iteration of the loop for hour `h`. -/
def hourLabels (h : Nat) : List String :=
  [padStart (toString h) 2 '0' ++ ":00", padStart (toString h) 2 '0' ++ ":30"]

/-- The loop `for (let h = ...; h < horaFim; h++)` with `n` iterations left,
counter `h` and accumulator `slots` (each iteration pushes two labels). -/
def timeSlotsLoop : Nat → Nat → List String → List String
  | 0, _, slots => slots
  | n + 1, h, slots => timeSlotsLoop n (h + 1) (slots ++ hourLabels h)

/-- The slot list of `SchedulerScreen` for an operating window: the loop runs
while `h < horaFim`, that is `horaFim - horaInicio` times. -/
def timeSlotsFor (horaInicio horaFim : Nat) : List String :=
  timeSlotsLoop (horaFim - horaInicio) horaInicio []

/-- Source: `timeSlots`, the slot list for the configured window. -/
def timeSlots : List String := timeSlotsFor HORA_INICIO HORA_FIM

/-- Value of an ASCII decimal digit character, if it is one. -/
def digitValue (c : Char) : Option Nat :=
  if 48 ≤ c.toNat ∧ c.toNat ≤ 57 then some (c.toNat - 48) else none

/-- Reading of a label `HH:MM` as minutes after midnight. -/
def labelMinutes (label : String) : Option Nat :=
  match label.data with
  | [a, b, sep, c, d] =>
    if sep = ':' then
      match digitValue a, digitValue b, digitValue c, digitValue d with
      | some x, some y, some z, some w => some ((10 * x + y) * 60 + (10 * z + w))
      | _, _, _, _ => none
    else none
  | _ => none

/-- The decimal numeral of `n` written with exactly two digits. -/
def twoDigits (n : Nat) : String :=
  String.mk [Char.ofNat (48 + n / 10), Char.ofNat (48 + n % 10)]

/-! ## Reservation records and the store -/

/-- The object handed to `addDoc` by `handleProcessPayment` (source lines
771-781).  `createdAt` is the value of `new Date()` as a timestamp. -/
structure BookingData where
  date : String
  slot : String
  userId : String
  userEmail : String
  price : ℚ
  status : String
  createdAt : Nat
  paymentMethod : String
  paymentStatus : String
deriving DecidableEq

/-- A stored document: `doc.id` and `doc.data()`.  The objects built from a
snapshot, spread of `doc.data()` plus `id: doc.id`, carry the same fields. -/
structure BookingDoc where
  id : String
  data : BookingData
deriving DecidableEq

/-- The bookings collection. -/
abbrev Store := List BookingDoc

/-- The live query `where("date", "==", selectedDate)` (source lines 313-316). -/
def queryByDate (store : Store) (selectedDate : String) : List BookingDoc :=
  store.filter (fun doc => doc.data.date == selectedDate)

/-- Number of stored reservations for a `(date, slot)` pair. -/
def countAt (store : Store) (date slot : String) : Nat :=
  (store.filter (fun doc => doc.data.date == date && doc.data.slot == slot)).length

/-- The uniqueness predicate: at most one reservation per `(date, slot)`. -/
def UniqueSlots (store : Store) : Prop :=
  ∀ date slot, countAt store date slot ≤ 1

/-! ## The snapshot map of `SchedulerScreen` (source lines 318-324) -/

/-- A JavaScript `Map` from slot label to booking, in insertion order. -/
abbrev BookingsMap := List (String × BookingDoc)

/-- `Map.prototype.set`: an existing key keeps its position and takes the new
value, a new key is added at the end. -/
def mapSet : BookingsMap → String → BookingDoc → BookingsMap
  | [], k, v => [(k, v)]
  | (k0, v0) :: rest, k, v =>
    if k0 = k then (k, v) :: rest else (k0, v0) :: mapSet rest k v

/-- `Map.prototype.get`. -/
def mapGet : BookingsMap → String → Option BookingDoc
  | [], _ => none
  | (k0, v0) :: rest, k => if k0 = k then some v0 else mapGet rest k

/-- `Map.prototype.has`. -/
def mapHas : BookingsMap → String → Bool
  | [], _ => false
  | (k0, _) :: rest, k => if k0 = k then true else mapHas rest k

/-- `Array.from(map.values())`. -/
def mapValues (m : BookingsMap) : List BookingDoc := m.map Prod.snd

/-- The snapshot callback: every document is stored under its slot label. -/
def onSnapshot (docs : List BookingDoc) : BookingsMap :=
  docs.foldl (fun bookingsMap doc => mapSet bookingsMap doc.data.slot doc) []

/-! ## Slot classification in the grid (source lines 436-453) -/

/-- Source: `const isBooked = allBookings.has(slot)`. -/
def isBooked (allBookings : BookingsMap) (slot : String) : Bool :=
  mapHas allBookings slot

/-- Source: `const isSelected = selectedSlots.includes(slot)`. -/
def isSelected (selectedSlots : List String) (slot : String) : Bool :=
  selectedSlots.contains slot

/-- Source: `isBooked && allBookings.get(slot).userId === userId`. -/
def isMyBooking (allBookings : BookingsMap) (userId slot : String) : Bool :=
  isBooked allBookings slot &&
    (match mapGet allBookings slot with
     | some booking => decide (booking.data.userId = userId)
     | none => false)

/-- The four renderings of a grid cell. -/
inductive SlotStyle where
  | myBooking
  | bookedByOther
  | selected
  | available
deriving DecidableEq

/-- The branch structure that picks the rendering of a cell. -/
def slotStyle (allBookings : BookingsMap) (selectedSlots : List String)
    (userId slot : String) : SlotStyle :=
  if isBooked allBookings slot then
    if isMyBooking allBookings userId slot then SlotStyle.myBooking
    else SlotStyle.bookedByOther
  else if isSelected selectedSlots slot then SlotStyle.selected
  else SlotStyle.available

/-- The three availability classes of a slot for a viewer. -/
inductive Availability where
  | free
  | heldBySelf
  | heldByOther
deriving DecidableEq

/-- Availability shown by a rendering: both unbooked renderings are free. -/
def SlotStyle.availability : SlotStyle → Availability
  | SlotStyle.myBooking => Availability.heldBySelf
  | SlotStyle.bookedByOther => Availability.heldByOther
  | SlotStyle.selected => Availability.free
  | SlotStyle.available => Availability.free

/-- Availability of `slot` for viewer `userId`, as derived by the grid from
the snapshot map and the current selection. -/
def slotAvailability (allBookings : BookingsMap) (selectedSlots : List String)
    (userId slot : String) : Availability :=
  (slotStyle allBookings selectedSlots userId slot).availability

/-! ## Commit: `PaymentModal.handleProcessPayment` (source lines 754-794) -/

/-- Step 1 of the handler: the payment status for a payment method. -/
def computePaymentStatus (paymentMethod : String) : String :=
  let paymentStatus := "pendente"
  if paymentMethod = "cartao" ∨ paymentMethod = "pix" then "pago"
  else if paymentMethod = "local" then "pendente"
  else paymentStatus

/-- The record built for one slot (the argument of `addDoc`). -/
def bookingRecord (selectedDate userId userEmail paymentMethod paymentStatus : String)
    (now : Nat) (slot : String) : BookingData where
  date := selectedDate
  slot := slot
  userId := userId
  userEmail := userEmail
  price := PRECO_POR_BLOCO_30_MIN
  status := "confirmed"
  createdAt := now
  paymentMethod := paymentMethod
  paymentStatus := paymentStatus

/-- The records built by `selectedSlots.map(slot => addDoc(..., record))`. -/
def bookingRecords (selectedSlots : List String)
    (selectedDate userId userEmail paymentMethod : String) (now : Nat) : List BookingData :=
  selectedSlots.map
    (bookingRecord selectedDate userId userEmail paymentMethod
      (computePaymentStatus paymentMethod) now)

/-- The writes started by the `map`: write number `i` of the batch is accepted
by the store when `writeOk i`, and then stored under identifier `newId i`;
a rejected write yields `none`.  No write depends on another. -/
def addDocs (writeOk : Nat → Bool) (newId : Nat → String) :
    Nat → List BookingData → List (Option BookingDoc)
  | _, [] => []
  | i, data :: rest =>
    (if writeOk i then some (BookingDoc.mk (newId i) data) else none)
      :: addDocs writeOk newId (i + 1) rest

/-- What the handler leaves behind: the store, the modal error, the arguments
passed to `onBookingSuccess` (if it was called) and the `loading` flag. -/
structure PaymentOutcome where
  store : Store
  error : Option String
  bookingSuccess : Option (String × String)
  loading : Bool

/-- The handler: compute the status, start one `addDoc` per selected slot,
await `Promise.all`; when every write was accepted call `onBookingSuccess`,
otherwise set the error.  Accepted writes are in the store either way. -/
def handleProcessPayment (store : Store) (writeOk : Nat → Bool) (newId : Nat → String)
    (now : Nat) (selectedSlots : List String)
    (selectedDate userId userEmail paymentMethod : String) : PaymentOutcome :=
  let paymentStatus := computePaymentStatus paymentMethod
  let promises := addDocs writeOk newId 0
    (bookingRecords selectedSlots selectedDate userId userEmail paymentMethod now)
  let written := store ++ promises.reduceOption
  if promises.all Option.isSome then
    { store := written, error := none,
      bookingSuccess := some (paymentMethod, paymentStatus), loading := false }
  else
    { store := written, error := some "Erro ao salvar a reserva. Tente novamente.",
      bookingSuccess := none, loading := false }

/-! ## Cancellation: `handleDeleteBooking` (source lines 380-394, 601-615) -/

/-- `deleteDoc(doc(db, path, bookingId))` on the collection. -/
def deleteDoc (store : Store) (bookingId : String) : Store :=
  store.filter (fun doc => doc.id != bookingId)

/-- What the confirmed cancellation leaves behind. -/
structure CancelOutcome where
  store : Store
  message : Option String
  error : Option String

/-- The confirmed action of `SchedulerScreen.handleDeleteBooking`; `deleteOk`
tells whether the store accepted the delete. -/
def handleDeleteBooking (store : Store) (deleteOk : Bool) (bookingId : String) :
    CancelOutcome :=
  if deleteOk then
    { store := deleteDoc store bookingId,
      message := some "Agendamento cancelado com sucesso.", error := none }
  else
    { store := store, message := none,
      error := some "Não foi possível cancelar o agendamento." }

/-! ## Revenue totals of `AdminDashboard` (source lines 617-622) -/

/-- Source: `totalRevenue`, a `reduce` from `0` adding the paid prices. -/
def totalRevenue (allBookings : List BookingDoc) : ℚ :=
  allBookings.foldl
    (fun acc booking => if booking.data.paymentStatus = "pago" then acc + booking.data.price else acc) 0

/-- Source: `pendingRevenue`, a `reduce` from `0` adding the pending prices. -/
def pendingRevenue (allBookings : List BookingDoc) : ℚ :=
  allBookings.foldl
    (fun acc booking => if booking.data.paymentStatus = "pendente" then acc + booking.data.price else acc) 0

/-- The confirmed action of `AdminDashboard.handleDeleteBooking`: the same
delete, with the administrator's message. -/
def adminHandleDeleteBooking (store : Store) (deleteOk : Bool) (bookingId : String) :
    CancelOutcome :=
  if deleteOk then
    { store := deleteDoc store bookingId,
      message := some "Agendamento (ADMIN) cancelado com sucesso.", error := none }
  else
    { store := store, message := none,
      error := some "Não foi possível cancelar o agendamento." }

/-! ## Selection handlers of `SchedulerScreen` (source lines 349-371) -/

/-- The part of the component state that the selection handlers read and
write. -/
structure SchedulerState where
  selectedSlots : List String
  error : Option String
  message : Option String
  paymentModalOpen : Bool
deriving DecidableEq

/-- Source: `handleSelectSlot`.  A slot present in the map sets the error and
returns; otherwise the slot is removed from the selection when it is there
and added at the end when it is not, and the error is cleared. -/
def handleSelectSlot (allBookings : BookingsMap) (st : SchedulerState) (slot : String) :
    SchedulerState :=
  if mapHas allBookings slot then
    { st with error := some "Este horário já está reservado." }
  else
    { st with
      selectedSlots :=
        if st.selectedSlots.contains slot then st.selectedSlots.filter (fun s => s != slot)
        else st.selectedSlots ++ [slot]
      error := none }

/-- Source: `handleOpenPaymentModal`. -/
def handleOpenPaymentModal (st : SchedulerState) : SchedulerState :=
  if st.selectedSlots.length = 0 then
    { st with error := some "Selecione pelo menos um horário." }
  else
    { st with error := none, paymentModalOpen := true }

/-- A run of `handleSelectSlot` calls, each with the map that was current at
the time of the click. -/
def selectAll (st : SchedulerState) : List (BookingsMap × String) → SchedulerState
  | [] => st
  | (allBookings, slot) :: rest => selectAll (handleSelectSlot allBookings st slot) rest

/-! ## The customer's own bookings (source lines 335-340) -/

/-- Source: `myBookings`: the values of the map, filtered by owner, sorted with
the comparator `(a, b) => a.slot.localeCompare(b.slot)`.  `localeCompare` is
supplied by the host and is an input here; `Array.prototype.sort` is stable,
as is the insertion sort used. -/
def myBookings (localeCompare : String → String → Int) (allBookings : BookingsMap)
    (userId : String) : List BookingDoc :=
  ((mapValues allBookings).filter (fun booking => booking.data.userId == userId)).insertionSort
    (fun a b => localeCompare a.data.slot b.data.slot ≤ 0)

/-- Comparison of strings by code units, a comparator with which `myBookings`
can be run. -/
def codeUnitCompare (a b : String) : Int :=
  if a.toList < b.toList then -1 else if a = b then 0 else 1

/-! ## The total of a selection (source lines 396 and 544) -/

/-- Reading of a list of decimal digits, most significant first, continuing
from the value `acc`; `none` when a character is not a digit. -/
def parseDigitsFrom : Nat → List Char → Option Nat
  | acc, [] => some acc
  | acc, c :: rest =>
    match digitValue c with
    | some d => parseDigitsFrom (10 * acc + d) rest
    | none => none

/-- `Number.prototype.toFixed(2)` for a non-negative number below `1e21`: take
the integer `n` with `n / 100` nearest to `x` (the larger one on a tie), write
it in decimal, pad with zeros on the left to at least three digits and put the
point before the last two. -/
def toFixed2 (x : ℚ) : String :=
  let n := (⌊x * 100 + 1 / 2⌋).toNat
  let m := toString n
  let m := if m.length ≤ 2 then padStart m 3 '0' else m
  String.mk (m.toList.take (m.length - 2)) ++ "." ++ String.mk (m.toList.drop (m.length - 2))

/-- `parseFloat` on an unsigned decimal literal `digits.digits`, the shape
that `toFixed` yields; `none` stands for `NaN`. -/
def parseFloat (s : String) : Option ℚ :=
  let intPart := s.toList.takeWhile (fun c => c != '.')
  let rest := s.toList.dropWhile (fun c => c != '.')
  match rest with
  | [] => (parseDigitsFrom 0 intPart).map (fun n => (n : ℚ))
  | _ :: fracPart =>
    match parseDigitsFrom 0 intPart, parseDigitsFrom 0 fracPart with
    | some n, some f => some ((n : ℚ) + (f : ℚ) / (10 : ℚ) ^ fracPart.length)
    | _, _ => none

/-- Source: `totalReserva = (selectedSlots.length * PRECO_POR_BLOCO_30_MIN).toFixed(2)`. -/
def totalReserva (selectedSlots : List String) : String :=
  toFixed2 ((selectedSlots.length : ℚ) * PRECO_POR_BLOCO_30_MIN)

/-- Source: the prop `totalAmount={parseFloat(totalReserva)}` of the modal. -/
def totalAmount (selectedSlots : List String) : Option ℚ :=
  parseFloat (totalReserva selectedSlots)

/-! ## Session start and routing in `App` (source lines 82-146) -/

/-- The signed-in principal handed to the auth observer. -/
structure AuthUser where
  uid : String
  email : String
  isAnonymous : Bool
deriving DecidableEq

/-- A document of the `user_roles` collection; `role` may be missing. -/
structure RoleDoc where
  id : String
  uid : String
  email : String
  role : Option String
deriving DecidableEq

/-- The object kept in `userInfo`. -/
structure UserInfo where
  uid : String
  email : String
  role : Option String
  id : Option String
deriving DecidableEq

/-- The state of `App`. -/
structure AppState where
  user : Option AuthUser
  userInfo : Option UserInfo
  userId : Option String
  loadingAuth : Bool
  isAuthReady : Bool
deriving DecidableEq

/-- The query `where("uid", "==", currentUser.uid)` on the role records. -/
def queryRoles (userRoles : List RoleDoc) (uid : String) : List RoleDoc :=
  userRoles.filter (fun r => r.uid == uid)

/-- The observer passed to `onAuthStateChanged`.  `lookupOk` tells whether
`getDocs` resolved; when it did not, the `catch` branch runs. -/
def onAuthStateChanged (userRoles : List RoleDoc) (lookupOk : Bool)
    (currentUser : Option AuthUser) (st : AppState) : AppState :=
  match currentUser with
  | some u =>
    if u.isAnonymous then
      { st with user := none, userId := none, userInfo := none, isAuthReady := true,
                loadingAuth := false }
    else
      let userInfo : UserInfo :=
        if lookupOk then
          match queryRoles userRoles u.uid with
          | r :: _ => { uid := r.uid, email := r.email, role := r.role, id := some r.id }
          | [] => { uid := u.uid, email := u.email, role := some "customer", id := none }
        else { uid := u.uid, email := u.email, role := some "customer", id := none }
      { st with user := some u, userId := some u.uid, userInfo := some userInfo,
                isAuthReady := true, loadingAuth := false }
  | none =>
    { st with user := none, userId := none, userInfo := none, isAuthReady := true,
              loadingAuth := false }

/-- The screens `App` can render. -/
inductive Screen where
  | loading
  | authScreen
  | adminDashboard
  | schedulerScreen
deriving DecidableEq

/-- The routing of `App`. -/
def route (st : AppState) : Screen :=
  if st.loadingAuth || !st.isAuthReady then Screen.loading
  else
    match st.user, st.userInfo with
    | some _, some info =>
      if info.role = some "admin" then Screen.adminDashboard else Screen.schedulerScreen
    | _, _ => Screen.authScreen

/-! ## Concrete scenarios -/

/-- A store holding one reservation of `2025-06-01`, slot `09:00`, owned by
`user-b`, booked for on-site payment. -/
def storeHeldByB : Store :=
  [BookingDoc.mk "doc-b"
    (bookingRecord "2025-06-01" "user-b" "b@example.com" "local" "pendente" 0 "09:00")]

/-- The record of `storeHeldByB`. -/
def docB : BookingDoc :=
  BookingDoc.mk "doc-b"
    (bookingRecord "2025-06-01" "user-b" "b@example.com" "local" "pendente" 0 "09:00")

/-- Customer `user-a` commits slot `09:00` of `2025-06-01` by card on
`storeHeldByB`; the store accepts the write. -/
def commitOnHeldSlot : PaymentOutcome :=
  handleProcessPayment storeHeldByB (fun _ => true) (fun _ => "doc-a") 1
    ["09:00"] "2025-06-01" "user-a" "a@example.com" "cartao"

/-- Customer `user-a` books `09:00` and `09:30` of `2025-06-01` by card on an
empty store; both writes are accepted. -/
def commitByA : PaymentOutcome :=
  handleProcessPayment [] (fun _ => true) (fun i => if i = 0 then "doc-a0" else "doc-a1") 1
    ["09:00", "09:30"] "2025-06-01" "user-a" "a@example.com" "cartao"

/-- Afterwards customer `user-b` commits `09:00` of the same date. -/
def commitByBAfterA : PaymentOutcome :=
  handleProcessPayment commitByA.store (fun _ => true) (fun _ => "doc-b0") 2
    ["09:00"] "2025-06-01" "user-b" "b@example.com" "pix"

/-- The record stored by `commitByBAfterA`. -/
def docB0 : BookingDoc :=
  BookingDoc.mk "doc-b0"
    (bookingRecord "2025-06-01" "user-b" "b@example.com" "pix" "pago" 2 "09:00")

/-- A commit of `09:00` and `09:30` on an empty store in which the first
write is accepted and the second is rejected. -/
def commitHalfWritten : PaymentOutcome :=
  handleProcessPayment [] (fun i => decide (i = 0)) (fun _ => "doc-a0") 1
    ["09:00", "09:30"] "2025-06-01" "user-a" "a@example.com" "cartao"

/-- A session state before the auth observer has run. -/
def initialAppState : AppState :=
  { user := none, userInfo := none, userId := none, loadingAuth := true, isAuthReady := false }

/-- Role records of three documents: `u0` is an administrator; `u1` has two
records, the first with role `customer` and a later one with role `admin`. -/
def roleRecords : List RoleDoc :=
  [RoleDoc.mk "r0" "u0" "u0@example.com" (some "admin"),
   RoleDoc.mk "r1" "u1" "u1@example.com" (some "customer"),
   RoleDoc.mk "r2" "u1" "u1@example.com" (some "admin")]

/-- A snapshot of `2025-06-01` in which the records are not in slot order and
`09:00` occurs twice, first for `user-b` (`d2`) and later for `user-a` (`d4`). -/
def mixedStore : Store :=
  [BookingDoc.mk "d1"
     (bookingRecord "2025-06-01" "user-a" "a@example.com" "local" "pendente" 1 "10:30"),
   BookingDoc.mk "d2"
     (bookingRecord "2025-06-01" "user-b" "b@example.com" "pix" "pago" 2 "09:00"),
   BookingDoc.mk "d3"
     (bookingRecord "2025-06-01" "user-a" "a@example.com" "cartao" "pago" 3 "09:30"),
   BookingDoc.mk "d4"
     (bookingRecord "2025-06-01" "user-a" "a@example.com" "cartao" "pago" 4 "09:00"),
   BookingDoc.mk "d5"
     (bookingRecord "2025-06-01" "user-b" "b@example.com" "local" "pendente" 5 "08:00")]

/-- The record `d4` of `mixedStore`. -/
def mixedDoc4 : BookingDoc :=
  BookingDoc.mk "d4"
    (bookingRecord "2025-06-01" "user-a" "a@example.com" "cartao" "pago" 4 "09:00")

/-- An empty selection with no message and the payment modal closed. -/
def initialSchedulerState : SchedulerState :=
  { selectedSlots := [], error := none, message := none, paymentModalOpen := false }

/-! ## Lemmas on the snapshot map -/

theorem mapHas_eq_isSome (m : BookingsMap) (k : String) :
    mapHas m k = (mapGet m k).isSome := by
  induction m with
  | nil => rfl
  | cons p rest ih =>
    obtain ⟨k0, v0⟩ := p
    by_cases h : k0 = k <;> simp [mapHas, mapGet, h, ih]

theorem mapGet_mapSet (m : BookingsMap) (k : String) (v : BookingDoc) (s : String) :
    mapGet (mapSet m k v) s = if k = s then some v else mapGet m s := by
  induction m with
  | nil => simp [mapSet, mapGet]
  | cons p rest ih =>
    obtain ⟨k0, v0⟩ := p
    by_cases h : k0 = k
    · subst h
      by_cases hs : k0 = s <;> simp [mapSet, mapGet, hs]
    · by_cases hs : k0 = s
      · subst hs
        have hk : ¬ k = k0 := fun e => h e.symm
        simp [mapSet, mapGet, h, hk]
      · simp [mapSet, mapGet, h, hs, ih]

/-- Folding documents into a map: the entry for `s` is the last folded
document with slot `s`, or the previous entry when there is none. -/
theorem mapGet_foldl (docs : List BookingDoc) (m : BookingsMap) (s : String) :
    mapGet (docs.foldl (fun bookingsMap doc => mapSet bookingsMap doc.data.slot doc) m) s =
      match (docs.filter (fun doc => doc.data.slot == s)).getLast? with
      | some doc => some doc
      | none => mapGet m s := by
  induction docs generalizing m with
  | nil => simp
  | cons d rest ih =>
    rw [List.foldl_cons, ih]
    by_cases hd : d.data.slot = s
    · have hf : (d :: rest).filter (fun doc => doc.data.slot == s)
          = d :: rest.filter (fun doc => doc.data.slot == s) := by
        simp [List.filter_cons, hd]
      rw [hf, mapGet_mapSet, if_pos hd]
      cases hr : rest.filter (fun doc => doc.data.slot == s) with
      | nil => simp
      | cons x xs =>
        rw [List.getLast?_cons_cons]
        cases hl : (x :: xs).getLast? with
        | none => simp at hl
        | some y => rfl
    · have hf : (d :: rest).filter (fun doc => doc.data.slot == s)
          = rest.filter (fun doc => doc.data.slot == s) := by
        simp [List.filter_cons, hd]
      rw [hf, mapGet_mapSet, if_neg hd]

/-- The entry of the snapshot map for `s` is the last document with slot `s`. -/
theorem mapGet_onSnapshot (docs : List BookingDoc) (s : String) :
    mapGet (onSnapshot docs) s = (docs.filter (fun doc => doc.data.slot == s)).getLast? := by
  unfold onSnapshot
  rw [mapGet_foldl]
  cases (docs.filter (fun doc => doc.data.slot == s)).getLast? <;> simp [mapGet]

theorem isBooked_onSnapshot_eq_false (docs : List BookingDoc) (s : String) :
    isBooked (onSnapshot docs) s = false ↔ ∀ doc ∈ docs, doc.data.slot ≠ s := by
  unfold isBooked
  rw [mapHas_eq_isSome, mapGet_onSnapshot]
  cases h : docs.filter (fun doc => doc.data.slot == s) with
  | nil =>
    simp only [List.getLast?_nil, Option.isSome_none, true_iff]
    intro doc hdoc hs
    have : doc ∈ docs.filter (fun doc => doc.data.slot == s) := by
      simp [List.mem_filter, hdoc, hs]
    rw [h] at this
    simp at this
  | cons x xs =>
    have hx : x ∈ docs.filter (fun doc => doc.data.slot == s) := by simp [h]
    rw [List.mem_filter] at hx
    have hne : (x :: xs).getLast? ≠ none := by simp
    constructor
    · intro hb
      cases hl : (x :: xs).getLast? with
      | none => exact absurd hl hne
      | some y => rw [hl] at hb; simp at hb
    · intro hall
      exact absurd (by simpa using hx.2) (hall x hx.1)

/-! ## Lemmas on the batch of writes -/

theorem addDocs_length (writeOk : Nat → Bool) (newId : Nat → String) (i : Nat)
    (recs : List BookingData) : (addDocs writeOk newId i recs).length = recs.length := by
  induction recs generalizing i with
  | nil => rfl
  | cons r rest ih => simp [addDocs, ih]

/-- `Promise.all` resolves exactly when every write of the batch is accepted. -/
theorem addDocs_all_isSome (writeOk : Nat → Bool) (newId : Nat → String) (i : Nat)
    (recs : List BookingData) :
    (addDocs writeOk newId i recs).all Option.isSome = true ↔
      ∀ j, i ≤ j → j < i + recs.length → writeOk j = true := by
  induction recs generalizing i with
  | nil =>
    simp only [addDocs, List.all_nil, List.length_nil, Nat.add_zero, true_iff]
    intro j h1 h2
    omega
  | cons r rest ih =>
    simp only [addDocs, List.all_cons, Bool.and_eq_true, ih, List.length_cons]
    constructor
    · rintro ⟨h0, hrest⟩ j h1 h2
      by_cases hj : j = i
      · subst hj
        cases hw : writeOk j with
        | true => rfl
        | false => simp [hw] at h0
      · exact hrest j (by omega) (by omega)
    · intro h
      refine ⟨?_, fun j h1 h2 => h j (by omega) (by omega)⟩
      simp [h i (Nat.le_refl i) (by omega)]

/-- When every write is accepted, the stored documents are the records in
order, write number `j` under identifier `newId j`. -/
theorem addDocs_reduceOption_of_ok (writeOk : Nat → Bool) (newId : Nat → String) (i : Nat)
    (recs : List BookingData)
    (h : ∀ j, i ≤ j → j < i + recs.length → writeOk j = true) :
    (addDocs writeOk newId i recs).reduceOption =
      List.zipWith (fun j r => BookingDoc.mk (newId j) r) (List.range' i recs.length) recs := by
  induction recs generalizing i with
  | nil => simp [addDocs]
  | cons r rest ih =>
    have h0 : writeOk i = true := h i (Nat.le_refl i) (by simp)
    have hrest : ∀ j, i + 1 ≤ j → j < i + 1 + rest.length → writeOk j = true :=
      fun j h1 h2 => h j (by omega) (by simp only [List.length_cons]; omega)
    simp only [addDocs, h0, if_true, List.reduceOption_cons_of_some, List.length_cons,
      List.range'_succ, List.zipWith_cons_cons, ih (i + 1) hrest]

/-- When every write is rejected, nothing is stored. -/
theorem addDocs_reduceOption_of_fail (writeOk : Nat → Bool) (newId : Nat → String) (i : Nat)
    (recs : List BookingData)
    (h : ∀ j, i ≤ j → j < i + recs.length → writeOk j = false) :
    (addDocs writeOk newId i recs).reduceOption = [] := by
  induction recs generalizing i with
  | nil => simp [addDocs]
  | cons r rest ih =>
    have h0 : writeOk i = false := h i (Nat.le_refl i) (by simp)
    have hrest : ∀ j, i + 1 ≤ j → j < i + 1 + rest.length → writeOk j = false :=
      fun j h1 h2 => h j (by omega) (by simp only [List.length_cons]; omega)
    simp [addDocs, h0, List.reduceOption_cons_of_none, ih (i + 1) hrest]

/-- The data of the stored documents, when every write is accepted. -/
theorem addDocs_data_of_ok (writeOk : Nat → Bool) (newId : Nat → String) (i : Nat)
    (recs : List BookingData)
    (h : ∀ j, i ≤ j → j < i + recs.length → writeOk j = true) :
    (addDocs writeOk newId i recs).reduceOption.map BookingDoc.data = recs := by
  induction recs generalizing i with
  | nil => simp [addDocs]
  | cons r rest ih =>
    have h0 : writeOk i = true := h i (Nat.le_refl i) (by simp)
    have hrest : ∀ j, i + 1 ≤ j → j < i + 1 + rest.length → writeOk j = true :=
      fun j h1 h2 => h j (by omega) (by simp only [List.length_cons]; omega)
    simp [addDocs, h0, List.reduceOption_cons_of_some, ih (i + 1) hrest]

theorem bookingRecords_length (selectedSlots : List String)
    (selectedDate userId userEmail paymentMethod : String) (now : Nat) :
    (bookingRecords selectedSlots selectedDate userId userEmail paymentMethod now).length =
      selectedSlots.length := by
  simp [bookingRecords]

/-- The store after a commit in which every write is accepted. -/
theorem handleProcessPayment_store_of_ok (store : Store) (writeOk : Nat → Bool)
    (newId : Nat → String) (now : Nat) (selectedSlots : List String)
    (selectedDate userId userEmail paymentMethod : String)
    (h : ∀ j, j < selectedSlots.length → writeOk j = true) :
    (handleProcessPayment store writeOk newId now selectedSlots selectedDate userId userEmail
        paymentMethod).store.map BookingDoc.data =
      store.map BookingDoc.data ++
        bookingRecords selectedSlots selectedDate userId userEmail paymentMethod now := by
  have hok : ∀ j, 0 ≤ j → j < 0 + (bookingRecords selectedSlots selectedDate userId userEmail
      paymentMethod now).length → writeOk j = true := by
    intro j _ hj
    rw [bookingRecords_length] at hj
    exact h j (by omega)
  unfold handleProcessPayment
  simp only []
  split <;> simp [addDocs_data_of_ok writeOk newId 0 _ hok]

/-! ## Uniqueness of reservations per slot -/

/-- A cancellation never raises the number of reservations of a slot, so it
preserves the uniqueness predicate. -/
theorem handleDeleteBooking_preserves_unique (store : Store) (deleteOk : Bool)
    (bookingId : String) (h : UniqueSlots store) :
    UniqueSlots (handleDeleteBooking store deleteOk bookingId).store := by
  intro date slot
  cases deleteOk with
  | false => exact h date slot
  | true =>
    have hsub : List.Sublist
        ((deleteDoc store bookingId).filter
          (fun doc => doc.data.date == date && doc.data.slot == slot))
        (store.filter (fun doc => doc.data.date == date && doc.data.slot == slot)) :=
      (List.filter_sublist store).filter _
    exact Nat.le_trans hsub.length_le (h date slot)

/-- C1, evaluated on the code: the store `storeHeldByB` satisfies the uniqueness
predicate, and after `handleProcessPayment` commits the held slot `09:00`
again it holds two reservations for `2025-06-01` at `09:00`, so the predicate
no longer holds. -/
theorem commit_on_held_slot_breaks_uniqueness :
    UniqueSlots storeHeldByB ∧
    commitOnHeldSlot.error = none ∧
    countAt commitOnHeldSlot.store "2025-06-01" "09:00" = 2 ∧
    ¬ UniqueSlots commitOnHeldSlot.store := by
  refine ⟨?_, by decide, by decide, ?_⟩
  · intro date slot
    unfold countAt storeHeldByB
    exact List.length_filter_le _ _
  · intro h
    have h2 := h "2025-06-01" "09:00"
    have h3 : countAt commitOnHeldSlot.store "2025-06-01" "09:00" = 2 := by decide
    omega

/-- C2, evaluated on the code: after `user-a` booked `09:00` and `09:30`, the
latest reservation set shows `09:00` as booked, yet the commit of `09:00` by
`user-b` reports no error, calls the success callback and stores a third
record, a second one for `09:00`. -/
theorem commit_of_booked_slot_is_accepted :
    isBooked (onSnapshot (queryByDate commitByA.store "2025-06-01")) "09:00" = true ∧
    commitByBAfterA.error = none ∧
    commitByBAfterA.bookingSuccess = some ("pix", "pago") ∧
    commitByBAfterA.store.length = commitByA.store.length + 1 ∧
    (commitByBAfterA.store.map (fun doc => (doc.data.slot, doc.data.userId))) =
      [("09:00", "user-a"), ("09:30", "user-a"), ("09:00", "user-b")] := by
  refine ⟨by decide, by decide, by decide, by decide, by decide⟩

/-! ## Batches under failing writes -/

/-- C3 as stated fails: when the first of two writes is accepted and the second
is rejected, the handler reports the error, yet the store was changed, it
holds a record for `09:00` and none for `09:30`; so neither every requested
slot nor none of them has been persisted. -/
theorem half_written_batch_is_neither_all_nor_none :
    commitHalfWritten.error = some "Erro ao salvar a reserva. Tente novamente." ∧
    commitHalfWritten.store ≠ [] ∧
    ¬ ((∀ slot ∈ ["09:00", "09:30"],
          ∃ doc ∈ commitHalfWritten.store, doc.data.slot = slot) ∨
       (∀ slot ∈ ["09:00", "09:30"],
          ¬ ∃ doc ∈ commitHalfWritten.store, doc.data.slot = slot)) := by
  have hstore : commitHalfWritten.store.map (fun doc => doc.data.slot) = ["09:00"] := by
    decide
  have hmem : ∀ slot, (∃ doc ∈ commitHalfWritten.store, doc.data.slot = slot) ↔
      slot ∈ commitHalfWritten.store.map (fun doc => doc.data.slot) := by
    intro slot
    simp [List.mem_map]
  refine ⟨by decide, by decide, ?_⟩
  rintro (hall | hnone)
  · have h := (hmem "09:30").1 (hall "09:30" (by simp))
    rw [hstore] at h
    simp at h
  · have h := hnone "09:00" (by simp)
    rw [hmem, hstore] at h
    simp at h

/-- C3, amended: for a commit over a non-empty slot list, success is reported
exactly when every write of the batch was accepted, and then the records of
all requested slots have been appended to the store in order; an error is
reported exactly when some write was rejected; and when every write was
rejected the error is reported and the store is unchanged. -/
theorem handleProcessPayment_uniform_writes (store : Store) (writeOk : Nat → Bool)
    (newId : Nat → String) (now : Nat) (selectedSlots : List String)
    (selectedDate userId userEmail paymentMethod : String)
    (hne : selectedSlots ≠ []) :
    ((handleProcessPayment store writeOk newId now selectedSlots selectedDate userId userEmail
        paymentMethod).bookingSuccess.isSome = true ↔
      ∀ j, j < selectedSlots.length → writeOk j = true) ∧
    ((handleProcessPayment store writeOk newId now selectedSlots selectedDate userId userEmail
        paymentMethod).error.isSome = true ↔
      ∃ j, j < selectedSlots.length ∧ writeOk j = false) ∧
    ((∀ j, j < selectedSlots.length → writeOk j = true) →
      (handleProcessPayment store writeOk newId now selectedSlots selectedDate userId userEmail
        paymentMethod).store =
        store ++ List.zipWith (fun j r => BookingDoc.mk (newId j) r)
          (List.range' 0 selectedSlots.length)
          (bookingRecords selectedSlots selectedDate userId userEmail paymentMethod now)) ∧
    ((∀ j, j < selectedSlots.length → writeOk j = false) →
      (handleProcessPayment store writeOk newId now selectedSlots selectedDate userId userEmail
        paymentMethod).error = some "Erro ao salvar a reserva. Tente novamente." ∧
      (handleProcessPayment store writeOk newId now selectedSlots selectedDate userId userEmail
        paymentMethod).store = store) := by
  have hlen := bookingRecords_length selectedSlots selectedDate userId userEmail paymentMethod now
  have hall := addDocs_all_isSome writeOk newId 0
    (bookingRecords selectedSlots selectedDate userId userEmail paymentMethod now)
  rw [hlen] at hall
  have hall2 : (addDocs writeOk newId 0
      (bookingRecords selectedSlots selectedDate userId userEmail paymentMethod now)).all
        Option.isSome = true ↔ ∀ j, j < selectedSlots.length → writeOk j = true := by
    rw [hall]
    constructor
    · intro h j hj
      exact h j (Nat.zero_le j) (by omega)
    · intro h j _ hj
      exact h j (by omega)
  have hpos : 0 < selectedSlots.length := List.length_pos.2 hne
  refine ⟨?_, ?_, ?_, ?_⟩
  · unfold handleProcessPayment
    simp only []
    split
    · rename_i h
      simpa using hall2.1 h
    · rename_i h
      simp only [Option.isSome_none, Bool.false_eq_true, false_iff]
      exact fun hh => h (hall2.2 hh)
  · unfold handleProcessPayment
    simp only []
    split
    · rename_i h
      simp only [Option.isSome_none, Bool.false_eq_true, false_iff]
      rintro ⟨j, hj, hw⟩
      have := hall2.1 h j hj
      rw [hw] at this
      exact absurd this (by decide)
    · rename_i h
      simp only [Option.isSome_some, true_iff]
      by_contra hcon
      apply h
      apply hall2.2
      intro j hj
      cases hw : writeOk j with
      | true => rfl
      | false => exact absurd ⟨j, hj, hw⟩ hcon
  · intro hok
    have hok2 : ∀ j, 0 ≤ j → j < 0 + (bookingRecords selectedSlots selectedDate userId userEmail
        paymentMethod now).length → writeOk j = true := by
      intro j _ hj
      rw [hlen] at hj
      exact hok j (by omega)
    have hred := addDocs_reduceOption_of_ok writeOk newId 0 _ hok2
    rw [hlen] at hred
    unfold handleProcessPayment
    simp only []
    split <;> simp [hred]
  · intro hfail
    have hfail2 : ∀ j, 0 ≤ j → j < 0 + (bookingRecords selectedSlots selectedDate userId
        userEmail paymentMethod now).length → writeOk j = false := by
      intro j _ hj
      rw [hlen] at hj
      exact hfail j (by omega)
    have hred := addDocs_reduceOption_of_fail writeOk newId 0 _ hfail2
    have hnot : ¬ ((addDocs writeOk newId 0
        (bookingRecords selectedSlots selectedDate userId userEmail paymentMethod now)).all
          Option.isSome = true) := by
      intro h
      have := hall2.1 h 0 hpos
      rw [hfail 0 hpos] at this
      exact absurd this (by decide)
    unfold handleProcessPayment
    simp only []
    rw [if_neg hnot]
    simp [hred]

/-- Witness for C3: a single-slot commit whose only write is rejected reports
the error and leaves the store `storeHeldByB` unchanged. -/
theorem handleProcessPayment_uniform_writes_witness :
    (handleProcessPayment storeHeldByB (fun _ => false) (fun _ => "doc-a") 1
        ["10:00"] "2025-06-01" "user-a" "a@example.com" "cartao").error =
      some "Erro ao salvar a reserva. Tente novamente." ∧
    (handleProcessPayment storeHeldByB (fun _ => false) (fun _ => "doc-a") 1
        ["10:00"] "2025-06-01" "user-a" "a@example.com" "cartao").store = storeHeldByB :=
  (handleProcessPayment_uniform_writes storeHeldByB (fun _ => false) (fun _ => "doc-a") 1
    ["10:00"] "2025-06-01" "user-a" "a@example.com" "cartao" (by decide)).2.2.2
    (fun _ _ => rfl)

/-! ## Availability after a commit -/

theorem handleProcessPayment_store (store : Store) (writeOk : Nat → Bool)
    (newId : Nat → String) (now : Nat) (selectedSlots : List String)
    (selectedDate userId userEmail paymentMethod : String) :
    (handleProcessPayment store writeOk newId now selectedSlots selectedDate userId userEmail
        paymentMethod).store =
      store ++ (addDocs writeOk newId 0
        (bookingRecords selectedSlots selectedDate userId userEmail paymentMethod
          now)).reduceOption := by
  unfold handleProcessPayment
  simp only []
  split <;> rfl

theorem slotAvailability_of_get (m : BookingsMap) (selectedSlots : List String)
    (viewer slot : String) (b : BookingDoc) (h : mapGet m slot = some b) :
    slotAvailability m selectedSlots viewer slot =
      if b.data.userId = viewer then Availability.heldBySelf else Availability.heldByOther := by
  unfold slotAvailability slotStyle isMyBooking isBooked
  rw [mapHas_eq_isSome, h]
  by_cases hv : b.data.userId = viewer <;> simp [hv, SlotStyle.availability]

theorem slotAvailability_of_none (m : BookingsMap) (selectedSlots : List String)
    (viewer slot : String) (h : mapGet m slot = none) :
    slotAvailability m selectedSlots viewer slot = Availability.free := by
  unfold slotAvailability slotStyle isBooked
  rw [mapHas_eq_isSome, h]
  by_cases hs : isSelected selectedSlots slot = true <;> simp [hs, SlotStyle.availability]

/-- After a fully accepted commit of slots that were free, the snapshot map
for the date has, for each requested slot, a booking of the committing user. -/
theorem mapGet_after_commit (store : Store) (newId : Nat → String) (now : Nat)
    (requested : List String) (selectedDate userId userEmail paymentMethod : String)
    (hfree : ∀ s ∈ requested,
      isBooked (onSnapshot (queryByDate store selectedDate)) s = false)
    (slot : String) (hslot : slot ∈ requested) :
    ∃ b, mapGet (onSnapshot (queryByDate
        (handleProcessPayment store (fun _ => true) newId now requested selectedDate userId
          userEmail paymentMethod).store selectedDate)) slot = some b ∧
      b.data.userId = userId := by
  have hdata := handleProcessPayment_store_of_ok store (fun _ => true) newId now requested
    selectedDate userId userEmail paymentMethod (fun _ _ => rfl)
  rw [handleProcessPayment_store] at hdata ⊢
  generalize (addDocs (fun _ => true) newId 0
    (bookingRecords requested selectedDate userId userEmail paymentMethod now)).reduceOption
    = added at hdata ⊢
  have hadded : added.map BookingDoc.data =
      bookingRecords requested selectedDate userId userEmail paymentMethod now := by
    simpa using hdata
  have hold := (isBooked_onSnapshot_eq_false _ slot).1 (hfree slot hslot)
  rw [mapGet_onSnapshot]
  -- some added document has the requested slot and date
  have hrec : bookingRecord selectedDate userId userEmail paymentMethod
      (computePaymentStatus paymentMethod) now slot ∈ added.map BookingDoc.data := by
    rw [hadded]
    exact List.mem_map.2 ⟨slot, hslot, rfl⟩
  obtain ⟨doc, hdoc, hdocdata⟩ := List.mem_map.1 hrec
  have hin : doc ∈ (queryByDate (store ++ added) selectedDate).filter
      (fun doc => doc.data.slot == slot) := by
    simp [queryByDate, List.mem_filter, hdoc, hdocdata, bookingRecord]
  cases hl : ((queryByDate (store ++ added) selectedDate).filter
      (fun doc => doc.data.slot == slot)).getLast? with
  | none =>
    rw [List.getLast?_eq_none_iff] at hl
    rw [hl] at hin
    simp at hin
  | some b =>
    refine ⟨b, rfl, ?_⟩
    have hb := List.mem_of_getLast?_eq_some hl
    simp only [queryByDate, List.mem_filter, List.mem_append, beq_iff_eq] at hb
    obtain ⟨⟨hmem, hdate⟩, hs⟩ := hb
    rcases hmem with hstore | hnew
    · exact absurd hs (hold b (by simp [queryByDate, List.mem_filter, hstore, hdate]))
    · have : b.data ∈ bookingRecords requested selectedDate userId userEmail paymentMethod
          now := by
        rw [← hadded]
        exact List.mem_map.2 ⟨b, hnew, rfl⟩
      obtain ⟨s0, _, hs0⟩ := List.mem_map.1 this
      rw [← hs0]
      rfl

/-- C4: if every slot of the batch is free in the snapshot of the date, then
after the commit by user `userId` (all writes accepted) the availability
re-derived from the new snapshot maps every requested slot to a booking
owned by `userId`; the slot is held-by-self for `userId` and held-by-other
for every other viewer. -/
theorem commit_then_availability (store : Store) (newId : Nat → String) (now : Nat)
    (requested selection : List String)
    (selectedDate userId userEmail paymentMethod : String)
    (hfree : ∀ s ∈ requested,
      isBooked (onSnapshot (queryByDate store selectedDate)) s = false) :
    ∀ slot ∈ requested,
      (∃ b, mapGet (onSnapshot (queryByDate
          (handleProcessPayment store (fun _ => true) newId now requested selectedDate userId
            userEmail paymentMethod).store selectedDate)) slot = some b ∧
        b.data.userId = userId) ∧
      slotAvailability (onSnapshot (queryByDate
          (handleProcessPayment store (fun _ => true) newId now requested selectedDate userId
            userEmail paymentMethod).store selectedDate)) selection userId slot =
        Availability.heldBySelf ∧
      ∀ other, other ≠ userId →
        slotAvailability (onSnapshot (queryByDate
            (handleProcessPayment store (fun _ => true) newId now requested selectedDate userId
              userEmail paymentMethod).store selectedDate)) selection other slot =
          Availability.heldByOther := by
  intro slot hslot
  obtain ⟨b, hb, hown⟩ := mapGet_after_commit store newId now requested selectedDate userId
    userEmail paymentMethod hfree slot hslot
  refine ⟨⟨b, hb, hown⟩, ?_, ?_⟩
  · rw [slotAvailability_of_get _ _ _ _ b hb, if_pos hown]
  · intro other hother
    rw [slotAvailability_of_get _ _ _ _ b hb, if_neg]
    rw [hown]
    exact fun e => hother e.symm

/-- Witness for C4: on `storeHeldByB`, where `10:00` and `10:30` are free,
the commit of both by `user-a` makes `10:30` held-by-self for `user-a` and
held-by-other for `user-b`. -/
theorem commit_then_availability_witness :
    slotAvailability (onSnapshot (queryByDate
        (handleProcessPayment storeHeldByB (fun _ => true) (fun _ => "doc-a") 1
          ["10:00", "10:30"] "2025-06-01" "user-a" "a@example.com" "local").store
        "2025-06-01")) [] "user-a" "10:30" = Availability.heldBySelf ∧
    slotAvailability (onSnapshot (queryByDate
        (handleProcessPayment storeHeldByB (fun _ => true) (fun _ => "doc-a") 1
          ["10:00", "10:30"] "2025-06-01" "user-a" "a@example.com" "local").store
        "2025-06-01")) [] "user-b" "10:30" = Availability.heldByOther :=
  have h := commit_then_availability storeHeldByB (fun _ => "doc-a") 1
    ["10:00", "10:30"] [] "2025-06-01" "user-a" "a@example.com" "local"
    (by decide) "10:30" (by decide)
  ⟨h.2.1, h.2.2 "user-b" (by decide)⟩

/-! ## Classification of a slot -/

/-- C5: for the map built from any snapshot, any selection, viewer and slot:
the slot is free iff no reservation of the snapshot has that slot; it is
held-by-self iff the reservation mapped to the slot has the viewer as
`userId`; it is held-by-other iff neither of the two holds, which is the case
iff the mapped reservation has another `userId`; and exactly one of the
three classes applies. -/
theorem slotAvailability_classification (docs : List BookingDoc) (selection : List String)
    (selfId slot : String) :
    (slotAvailability (onSnapshot docs) selection selfId slot = Availability.free ↔
      ∀ doc ∈ docs, doc.data.slot ≠ slot) ∧
    (slotAvailability (onSnapshot docs) selection selfId slot = Availability.heldBySelf ↔
      ∃ b, mapGet (onSnapshot docs) slot = some b ∧ b.data.userId = selfId) ∧
    (slotAvailability (onSnapshot docs) selection selfId slot = Availability.heldByOther ↔
      ¬ (∀ doc ∈ docs, doc.data.slot ≠ slot) ∧
      ¬ ∃ b, mapGet (onSnapshot docs) slot = some b ∧ b.data.userId = selfId) ∧
    (slotAvailability (onSnapshot docs) selection selfId slot = Availability.heldByOther ↔
      ∃ b, mapGet (onSnapshot docs) slot = some b ∧ b.data.userId ≠ selfId) ∧
    ((slotAvailability (onSnapshot docs) selection selfId slot = Availability.free ∧
        slotAvailability (onSnapshot docs) selection selfId slot ≠ Availability.heldBySelf ∧
        slotAvailability (onSnapshot docs) selection selfId slot ≠ Availability.heldByOther) ∨
     (slotAvailability (onSnapshot docs) selection selfId slot ≠ Availability.free ∧
        slotAvailability (onSnapshot docs) selection selfId slot = Availability.heldBySelf ∧
        slotAvailability (onSnapshot docs) selection selfId slot ≠ Availability.heldByOther) ∨
     (slotAvailability (onSnapshot docs) selection selfId slot ≠ Availability.free ∧
        slotAvailability (onSnapshot docs) selection selfId slot ≠ Availability.heldBySelf ∧
        slotAvailability (onSnapshot docs) selection selfId slot = Availability.heldByOther)) := by
  have hfree := isBooked_onSnapshot_eq_false docs slot
  unfold isBooked at hfree
  rw [mapHas_eq_isSome] at hfree
  cases hg : mapGet (onSnapshot docs) slot with
  | none =>
    have hnone : ∀ doc ∈ docs, doc.data.slot ≠ slot := hfree.1 (by simp [hg])
    rw [slotAvailability_of_none _ _ _ _ hg]
    refine ⟨?_, ?_, ?_, ?_, ?_⟩
    · exact ⟨fun _ => hnone, fun _ => rfl⟩
    · simp
    · constructor
      · intro h; exact absurd h (by decide)
      · rintro ⟨h, _⟩; exact absurd hnone h
    · simp
    · left; exact ⟨rfl, by decide, by decide⟩
  | some b =>
    have hsome : ¬ ∀ doc ∈ docs, doc.data.slot ≠ slot := by
      intro h
      have := hfree.2 h
      simp [hg] at this
    rw [slotAvailability_of_get _ _ _ _ b hg]
    by_cases hv : b.data.userId = selfId
    · rw [if_pos hv]
      refine ⟨?_, ?_, ?_, ?_, ?_⟩
      · constructor
        · intro h; exact absurd h (by decide)
        · intro h; exact absurd h hsome
      · exact ⟨fun _ => ⟨b, rfl, hv⟩, fun _ => rfl⟩
      · constructor
        · intro h; exact absurd h (by decide)
        · rintro ⟨_, h⟩; exact absurd ⟨b, rfl, hv⟩ h
      · constructor
        · intro h; exact absurd h (by decide)
        · rintro ⟨b2, hb2, hne⟩
          simp only [Option.some.injEq] at hb2
          rw [hb2] at hv
          exact absurd hv hne
      · right; left; exact ⟨by decide, rfl, by decide⟩
    · rw [if_neg hv]
      refine ⟨?_, ?_, ?_, ?_, ?_⟩
      · constructor
        · intro h; exact absurd h (by decide)
        · intro h; exact absurd h hsome
      · constructor
        · intro h; exact absurd h (by decide)
        · rintro ⟨b2, hb2, he⟩
          simp only [Option.some.injEq] at hb2
          rw [← hb2] at he
          exact absurd he hv
      · refine ⟨fun _ => ⟨hsome, ?_⟩, fun _ => rfl⟩
        rintro ⟨b2, hb2, he⟩
        simp only [Option.some.injEq] at hb2
        rw [← hb2] at he
        exact absurd he hv
      · exact ⟨fun _ => ⟨b, rfl, hv⟩, fun _ => rfl⟩
      · right; right; exact ⟨by decide, by decide, rfl⟩

/-! ## Payment status and the records of a commit -/

/-- C6: the payment status is `pago` iff the method is `cartao` or `pix`, and
`pendente` iff it is neither; `local` gives `pendente`; the status is always
one of the two values. -/
theorem computePaymentStatus_classification (paymentMethod : String) :
    (computePaymentStatus paymentMethod = "pago" ↔
      (paymentMethod = "cartao" ∨ paymentMethod = "pix")) ∧
    (computePaymentStatus paymentMethod = "pendente" ↔
      ¬ (paymentMethod = "cartao" ∨ paymentMethod = "pix")) ∧
    computePaymentStatus "local" = "pendente" ∧
    (computePaymentStatus paymentMethod = "pendente" ∨
      computePaymentStatus paymentMethod = "pago") := by
  have hne : ("pendente" : String) ≠ "pago" := by decide
  have hne2 : ("pago" : String) ≠ "pendente" := by decide
  unfold computePaymentStatus
  by_cases h : paymentMethod = "cartao" ∨ paymentMethod = "pix"
  · simp [h, hne2]
  · by_cases hl : paymentMethod = "local"
    · simp [h, hl, hne]
    · simp [h, hl, hne]

/-- C7: the records built for a commit are the image of the slot list, one
per slot and in its order; each has the date, its slot, the owner id and
email, price `135 / 2`, that is `67.50`, the method and the status computed
from it.  When every write is accepted these are the records added to the
store.  Booking `09:00` and `09:30` by card gives two records with price
`67.50` and status `pago`. -/
theorem bookingRecords_contents (store : Store) (newId : Nat → String) (now : Nat)
    (selectedSlots : List String) (selectedDate userId userEmail paymentMethod : String) :
    bookingRecords selectedSlots selectedDate userId userEmail paymentMethod now =
      selectedSlots.map (fun slot =>
        { date := selectedDate, slot := slot, userId := userId, userEmail := userEmail,
          price := 135 / 2, status := "confirmed", createdAt := now,
          paymentMethod := paymentMethod,
          paymentStatus := computePaymentStatus paymentMethod }) ∧
    (bookingRecords selectedSlots selectedDate userId userEmail paymentMethod now).length =
      selectedSlots.length ∧
    PRECO_POR_BLOCO_30_MIN = 67.5 ∧
    (handleProcessPayment store (fun _ => true) newId now selectedSlots selectedDate userId
        userEmail paymentMethod).store.map BookingDoc.data =
      store.map BookingDoc.data ++
        bookingRecords selectedSlots selectedDate userId userEmail paymentMethod now ∧
    commitByA.store.map
        (fun doc => (doc.data.date, doc.data.slot, doc.data.userId, doc.data.price,
          doc.data.paymentMethod, doc.data.paymentStatus)) =
      [("2025-06-01", "09:00", "user-a", 67.5, "cartao", "pago"),
       ("2025-06-01", "09:30", "user-a", 67.5, "cartao", "pago")] := by
  have hprice : PRECO_POR_BLOCO_30_MIN = 67.5 := by
    unfold PRECO_POR_BLOCO_30_MIN
    norm_num
  refine ⟨?_, bookingRecords_length _ _ _ _ _ _, hprice, ?_, ?_⟩
  · unfold bookingRecords
    apply List.map_congr_left
    intro slot _
    simp [bookingRecord, PRECO_POR_BLOCO_30_MIN]
  · exact handleProcessPayment_store_of_ok store (fun _ => true) newId now selectedSlots
      selectedDate userId userEmail paymentMethod (fun _ _ => rfl)
  · have hstatus : computePaymentStatus "cartao" = "pago" := by decide
    simp [commitByA, handleProcessPayment, bookingRecords, addDocs, bookingRecord, hstatus,
      hprice, List.reduceOption]

/-! ## Revenue totals -/

theorem foldl_revenue (status : String) (bookings : List BookingDoc) (acc : ℚ) :
    bookings.foldl
        (fun acc booking =>
          if booking.data.paymentStatus = status then acc + booking.data.price else acc) acc =
      acc + ((bookings.filter (fun booking => booking.data.paymentStatus == status)).map
        (fun booking => booking.data.price)).sum := by
  induction bookings generalizing acc with
  | nil => simp
  | cons b rest ih =>
    rw [List.foldl_cons, ih]
    by_cases h : b.data.paymentStatus = status
    · simp [h, List.filter_cons, add_assoc]
    · simp [h, List.filter_cons]

/-- C10: the paid total is the sum of the prices of the reservations with
status `pago`, the pending total the sum of the prices of those with status
`pendente`; for prices 67.50 paid, 67.50 pending, 67.50 paid the totals are
135.00 and 67.50. -/
theorem revenue_totals (allBookings : List BookingDoc) (d1 d2 d3 : BookingData)
    (i1 i2 i3 : String) :
    totalRevenue allBookings =
      ((allBookings.filter (fun booking => booking.data.paymentStatus == "pago")).map
        (fun booking => booking.data.price)).sum ∧
    pendingRevenue allBookings =
      ((allBookings.filter (fun booking => booking.data.paymentStatus == "pendente")).map
        (fun booking => booking.data.price)).sum ∧
    totalRevenue
      [BookingDoc.mk i1 { d1 with price := 67.5, paymentStatus := "pago" },
       BookingDoc.mk i2 { d2 with price := 67.5, paymentStatus := "pendente" },
       BookingDoc.mk i3 { d3 with price := 67.5, paymentStatus := "pago" }] = 135 ∧
    pendingRevenue
      [BookingDoc.mk i1 { d1 with price := 67.5, paymentStatus := "pago" },
       BookingDoc.mk i2 { d2 with price := 67.5, paymentStatus := "pendente" },
       BookingDoc.mk i3 { d3 with price := 67.5, paymentStatus := "pago" }] = 67.5 := by
  have hne : ("pendente" : String) ≠ "pago" := by decide
  have hne2 : ("pago" : String) ≠ "pendente" := by decide
  refine ⟨?_, ?_, ?_, ?_⟩
  · unfold totalRevenue
    rw [foldl_revenue]
    simp
  · unfold pendingRevenue
    rw [foldl_revenue]
    simp
  · simp [totalRevenue, hne]
    norm_num
  · simp [pendingRevenue, hne2]

/-! ## The slot calendar -/

/-- C8: the slot list of the configured window (8 to 22) has 28 labels, the
first is `08:00`, the last is `21:30`, every label reads as a time of day and
each label is 30 minutes after the one before it (label number `k` is
`480 + 30 * k` minutes after midnight). -/
theorem timeSlots_configured :
    HORA_INICIO = 8 ∧ HORA_FIM = 22 ∧
    timeSlots.length = 28 ∧
    timeSlots.head? = some "08:00" ∧
    timeSlots.getLast? = some "21:30" ∧
    (∀ p ∈ timeSlots.zip timeSlots.tail,
      (labelMinutes p.1).isSome = true ∧
      labelMinutes p.2 = (labelMinutes p.1).map (fun t => t + 30)) ∧
    timeSlots.map labelMinutes = (List.range 28).map (fun k => some (480 + 30 * k)) := by
  refine ⟨rfl, rfl, by decide, by decide, by decide, by decide, by decide⟩

/-- The loop appends, to its accumulator, the labels of the hours it visits. -/
theorem timeSlotsLoop_eq (n h : Nat) (slots : List String) :
    timeSlotsLoop n h slots = slots ++ (List.range' h n).flatMap hourLabels := by
  induction n generalizing h slots with
  | zero => simp [timeSlotsLoop]
  | succ n ih =>
    rw [timeSlotsLoop, ih, List.range'_succ, List.flatMap_cons, List.append_assoc]

theorem flatMap_hourLabels_length (n h : Nat) :
    ((List.range' h n).flatMap hourLabels).length = 2 * n := by
  induction n generalizing h with
  | zero => simp
  | succ n ih =>
    rw [List.range'_succ, List.flatMap_cons, List.length_append, ih]
    simp only [hourLabels, List.length_cons, List.length_nil]
    omega

theorem flatMap_hourLabels_get (n h k : Nat) (hk : k < n) :
    ((List.range' h n).flatMap hourLabels)[2 * k]? =
        some (padStart (toString (h + k)) 2 '0' ++ ":00") ∧
    ((List.range' h n).flatMap hourLabels)[2 * k + 1]? =
        some (padStart (toString (h + k)) 2 '0' ++ ":30") := by
  induction n generalizing h k with
  | zero => omega
  | succ n ih =>
    rw [List.range'_succ, List.flatMap_cons]
    cases k with
    | zero => simp [hourLabels]
    | succ k =>
      have h1 := ih (h + 1) k (by omega)
      have e1 : 2 * (k + 1) = 2 * k + 2 := by omega
      have e2 : h + (k + 1) = h + 1 + k := by omega
      rw [e1, e2]
      simpa [hourLabels] using h1

/-- For hours below 24 the padded numeral has exactly two digits. -/
theorem padStart_eq_twoDigits : ∀ h < 24, padStart (toString h) 2 '0' = twoDigits h := by
  decide

/-- The two labels of an hour are in string order. -/
theorem hourLabels_sorted : ∀ h < 24, List.Pairwise (fun x y => x.toList < y.toList)
    (hourLabels h) := by
  decide

/-- Labels of an earlier hour precede the labels of a later hour. -/
theorem hourLabels_lt : ∀ h1 < 24, ∀ h2 < 24, h1 < h2 →
    ∀ x ∈ hourLabels h1, ∀ y ∈ hourLabels h2, x.toList < y.toList := by
  decide

/-- C9: for hours `startHour ≤ endHour ≤ 24` the generated list has
`2 * (endHour - startHour)` labels; for `k < endHour - startHour` position
`2 * k` is the two-digit numeral of `startHour + k` followed by `:00` and
position `2 * k + 1` the same numeral followed by `:30`; the list is strictly
increasing in string order and has no duplicate. -/
theorem timeSlotsFor_contents (startHour endHour : Nat)
    (hle : startHour ≤ endHour) (hday : endHour ≤ 24) :
    (timeSlotsFor startHour endHour).length = 2 * (endHour - startHour) ∧
    (∀ k, k < endHour - startHour →
      (timeSlotsFor startHour endHour)[2 * k]? = some (twoDigits (startHour + k) ++ ":00") ∧
      (timeSlotsFor startHour endHour)[2 * k + 1]? =
        some (twoDigits (startHour + k) ++ ":30")) ∧
    List.Pairwise (fun x y => x < y) (timeSlotsFor startHour endHour) ∧
    (timeSlotsFor startHour endHour).Nodup := by
  have heq : timeSlotsFor startHour endHour =
      (List.range' startHour (endHour - startHour)).flatMap hourLabels := by
    unfold timeSlotsFor
    rw [timeSlotsLoop_eq]
    simp
  have hsorted : List.Pairwise (fun x y => x < y) (timeSlotsFor startHour endHour) := by
    rw [heq, List.pairwise_flatMap]
    constructor
    · intro a ha
      rw [List.mem_range'_1] at ha
      have := hourLabels_sorted a (by omega)
      exact this.imp (fun hxy => String.lt_iff_toList_lt.2 hxy)
    · refine (List.pairwise_lt_range' startHour (endHour - startHour)).imp_of_mem ?_
      intro a b ha hb hab x hx y hy
      rw [List.mem_range'_1] at ha hb
      exact String.lt_iff_toList_lt.2
        (hourLabels_lt a (by omega) b (by omega) hab x hx y hy)
  refine ⟨?_, ?_, hsorted, ?_⟩
  · rw [heq, flatMap_hourLabels_length]
  · intro k hk
    rw [heq, ← padStart_eq_twoDigits (startHour + k) (by omega)]
    exact flatMap_hourLabels_get _ _ k hk
  · exact hsorted.imp (fun hxy => ne_of_lt hxy)

/-- Witness for C9: the window from 9 to 11 gives the four labels `09:00`,
`09:30`, `10:00`, `10:30`. -/
theorem timeSlotsFor_contents_witness :
    (timeSlotsFor 9 11).length = 2 * (11 - 9) ∧
    (timeSlotsFor 9 11)[2 * 1 + 1]? = some (twoDigits (9 + 1) ++ ":30") ∧
    (timeSlotsFor 9 11).Nodup :=
  have h := timeSlotsFor_contents 9 11 (by decide) (by decide)
  ⟨h.1, (h.2.1 1 (by decide)).2, h.2.2.2⟩

/-! ## Cancellation -/

theorem mem_myBookings (localeCompare : String → String → Int) (allBookings : BookingsMap)
    (userId : String) (b : BookingDoc) :
    b ∈ myBookings localeCompare allBookings userId ↔
      b ∈ mapValues allBookings ∧ b.data.userId = userId := by
  unfold myBookings
  rw [(List.perm_insertionSort _ _).mem_iff]
  simp [List.mem_filter]

theorem mem_deleteDoc (store : Store) (bookingId : String) (doc : BookingDoc) :
    doc ∈ deleteDoc store bookingId ↔ doc ∈ store ∧ doc.id ≠ bookingId := by
  simp [deleteDoc, List.mem_filter]

/-- C11 as stated fails: the reservation `doc-b` of `storeHeldByB` is owned by
`user-b`; a requester `user-a` with role `customer`, neither its owner nor
an administrator, who runs the confirmed action of `handleDeleteBooking` on
it gets the record removed, with the success message and no error. -/
theorem cancellation_by_stranger_removes_record :
    (∃ doc ∈ storeHeldByB, doc.id = "doc-b" ∧ doc.data.userId ≠ "user-a") ∧
    ("customer" : String) ≠ "admin" ∧
    (handleDeleteBooking storeHeldByB true "doc-b").store = [] ∧
    (handleDeleteBooking storeHeldByB true "doc-b").error = none ∧
    (handleDeleteBooking storeHeldByB true "doc-b").message =
      some "Agendamento cancelado com sucesso." := by
  refine ⟨⟨docB, ?_, rfl, by decide⟩, by decide, by decide, by decide, by decide⟩
  simp [storeHeldByB, docB]

/-- C11, amended: the confirmed action of `handleDeleteBooking`, in the
customer screen and in the admin dashboard, takes the booking id only.  When
the store accepts the delete, exactly the records with that id are removed
and no error is set; when the store rejects it, the reservations are
unchanged and the error is set.  Who may cancel is decided by what is
offered: every entry of `myBookings`, the list that carries the customer's
cancel buttons, has the viewer as `userId`, and the admin dashboard is
routed to only when the resolved role is `admin`. -/
theorem cancellation_semantics (localeCompare : String → String → Int) (store : Store)
    (bookingId : String) (allBookings : BookingsMap) (viewer : String) (st : AppState) :
    (∀ doc, doc ∈ (handleDeleteBooking store true bookingId).store ↔
      doc ∈ store ∧ doc.id ≠ bookingId) ∧
    (handleDeleteBooking store true bookingId).error = none ∧
    (handleDeleteBooking store false bookingId).store = store ∧
    (handleDeleteBooking store false bookingId).error =
      some "Não foi possível cancelar o agendamento." ∧
    (adminHandleDeleteBooking store true bookingId).store =
      (handleDeleteBooking store true bookingId).store ∧
    (adminHandleDeleteBooking store true bookingId).error = none ∧
    (adminHandleDeleteBooking store false bookingId).store = store ∧
    (adminHandleDeleteBooking store false bookingId).error =
      some "Não foi possível cancelar o agendamento." ∧
    (∀ b ∈ myBookings localeCompare allBookings viewer, b.data.userId = viewer) ∧
    (route st = Screen.adminDashboard →
      ∃ info, st.userInfo = some info ∧ info.role = some "admin") := by
  refine ⟨fun doc => ?_, rfl, rfl, rfl, rfl, rfl, rfl, rfl, ?_, ?_⟩
  · exact mem_deleteDoc store bookingId doc
  · intro b hb
    exact ((mem_myBookings localeCompare allBookings viewer b).1 hb).2
  · intro hr
    unfold route at hr
    split at hr
    · exact absurd hr (by decide)
    · split at hr
      · rename_i u info hu hinfo
        refine ⟨info, hinfo, ?_⟩
        by_contra hne
        rw [if_neg hne] at hr
        exact absurd hr (by decide)
      · exact absurd hr (by decide)

/-- C12 as stated fails: once `user-a` and `user-b` both hold a record for
`09:00`, cancelling the record `doc-b0` of `user-b` leaves the slot booked:
the availability derived from the new snapshot is held-by-self for `user-a`
and held-by-other for `user-b`, not free. -/
theorem cancel_of_double_booked_slot_is_not_free :
    (∃ r ∈ queryByDate commitByBAfterA.store "2025-06-01",
      r.id = "doc-b0" ∧ r.data.slot = "09:00") ∧
    isBooked (onSnapshot (queryByDate
      (handleDeleteBooking commitByBAfterA.store true "doc-b0").store "2025-06-01"))
      "09:00" = true ∧
    slotAvailability (onSnapshot (queryByDate
      (handleDeleteBooking commitByBAfterA.store true "doc-b0").store "2025-06-01"))
      [] "user-b" "09:00" = Availability.heldByOther ∧
    slotAvailability (onSnapshot (queryByDate
      (handleDeleteBooking commitByBAfterA.store true "doc-b0").store "2025-06-01"))
      [] "user-a" "09:00" = Availability.heldBySelf := by
  refine ⟨⟨docB0, ?_, rfl, rfl⟩, by decide, by decide, by decide⟩
  have hstatus : computePaymentStatus "pix" = "pago" := by decide
  simp [queryByDate, commitByBAfterA, commitByA, handleProcessPayment, bookingRecords, addDocs,
    List.reduceOption, docB0, bookingRecord, hstatus]

/-- C12, amended: if `r` is a reservation of the date's set and every record
of the set with the slot of `r` has the id of `r` (no other record holds the
slot), then after the cancellation of `r` is accepted by the store the
availability derived from the new snapshot reports the slot of `r` as free,
for every viewer. -/
theorem cancel_frees_slot (store : Store) (selectedDate : String) (r : BookingDoc)
    (selection : List String) (viewer : String)
    (hr : r ∈ queryByDate store selectedDate)
    (honly : ∀ doc ∈ queryByDate store selectedDate,
      doc.data.slot = r.data.slot → doc.id = r.id) :
    r ∈ store ∧
    r ∉ (handleDeleteBooking store true r.id).store ∧
    slotAvailability (onSnapshot (queryByDate
      (handleDeleteBooking store true r.id).store selectedDate))
      selection viewer r.data.slot = Availability.free := by
  refine ⟨?_, ?_, ?_⟩
  · exact (List.mem_filter.1 hr).1
  · intro hmem
    exact ((mem_deleteDoc store r.id r).1 hmem).2 rfl
  · apply slotAvailability_of_none
    have hfree := (isBooked_onSnapshot_eq_false
      (queryByDate (handleDeleteBooking store true r.id).store selectedDate) r.data.slot).2
    have hnot : isBooked (onSnapshot (queryByDate
        (handleDeleteBooking store true r.id).store selectedDate)) r.data.slot = false := by
      apply hfree
      intro doc hdoc hslot
      have hdoc2 : doc ∈ deleteDoc store r.id ∧ doc.data.date = selectedDate := by
        simpa [queryByDate, List.mem_filter, handleDeleteBooking] using hdoc
      have hdoc3 := (mem_deleteDoc store r.id doc).1 hdoc2.1
      have hq : doc ∈ queryByDate store selectedDate := by
        simp [queryByDate, List.mem_filter, hdoc3.1, hdoc2.2]
      exact hdoc3.2 (honly doc hq hslot)
    unfold isBooked at hnot
    rw [mapHas_eq_isSome] at hnot
    cases hg : mapGet (onSnapshot (queryByDate
        (handleDeleteBooking store true r.id).store selectedDate)) r.data.slot with
    | none => rfl
    | some b => rw [hg] at hnot; simp at hnot

/-- Witness for C12: cancelling the only record of `storeHeldByB` frees its
slot `09:00`. -/
theorem cancel_frees_slot_witness :
    slotAvailability (onSnapshot (queryByDate
      (handleDeleteBooking storeHeldByB true "doc-b").store "2025-06-01"))
      [] "user-a" "09:00" = Availability.free :=
  (cancel_frees_slot storeHeldByB "2025-06-01" docB [] "user-a"
    (by simp [storeHeldByB, docB, queryByDate, bookingRecord])
    (by simp [storeHeldByB, docB, queryByDate, bookingRecord])).2.2

/-! ## Opening the payment modal -/

/-- C13: with an empty selection `handleOpenPaymentModal` sets the error and
changes nothing else, so a closed payment modal stays closed and no commit
is started; with a non-empty selection it clears the error and opens the
modal.  The handler does not touch the store, and a commit over an empty
selection would add no record. -/
theorem handleOpenPaymentModal_cases (st : SchedulerState) (store : Store)
    (writeOk : Nat → Bool) (newId : Nat → String) (now : Nat)
    (selectedDate userId userEmail paymentMethod : String) :
    (st.selectedSlots = [] →
      (handleOpenPaymentModal st).error = some "Selecione pelo menos um horário." ∧
      (handleOpenPaymentModal st).paymentModalOpen = st.paymentModalOpen ∧
      (st.paymentModalOpen = false → (handleOpenPaymentModal st).paymentModalOpen = false) ∧
      (handleOpenPaymentModal st).selectedSlots = st.selectedSlots ∧
      (handleOpenPaymentModal st).message = st.message) ∧
    (st.selectedSlots ≠ [] →
      (handleOpenPaymentModal st).error = none ∧
      (handleOpenPaymentModal st).paymentModalOpen = true ∧
      (handleOpenPaymentModal st).selectedSlots = st.selectedSlots ∧
      (handleOpenPaymentModal st).message = st.message) ∧
    (handleProcessPayment store writeOk newId now [] selectedDate userId userEmail
      paymentMethod).store = store := by
  refine ⟨?_, ?_, ?_⟩
  · intro h
    have hlen : st.selectedSlots.length = 0 := by simp [h]
    unfold handleOpenPaymentModal
    rw [if_pos hlen]
    exact ⟨rfl, rfl, fun hc => hc, rfl, rfl⟩
  · intro h
    have hlen : ¬ st.selectedSlots.length = 0 := by
      intro h0
      exact h (List.length_eq_zero.1 h0)
    unfold handleOpenPaymentModal
    rw [if_neg hlen]
    exact ⟨rfl, rfl, rfl, rfl⟩
  · rw [handleProcessPayment_store]
    simp [bookingRecords, addDocs]

/-! ## Role resolution and routing -/

theorem queryRoles_head (userRoles : List RoleDoc) (uid : String) :
    (queryRoles userRoles uid).head? = userRoles.find? (fun r => r.uid == uid) := by
  unfold queryRoles
  exact List.filter_head? _ _

/-- C14: for a signed-in, non-anonymous identity the observer stores a
`userInfo` whose role is the role of the first record of the role collection
whose `uid` is the identity's (the record `r` with `uid` equal to the
identity's that no record with that `uid` precedes) when the lookup resolves
and such a record exists, and `customer` when the lookup resolves and no
record has that `uid`, or when the lookup fails; afterwards the admin
dashboard is shown iff that role is `admin`, and the customer scheduler is
shown otherwise. -/
theorem role_resolution (userRoles : List RoleDoc) (lookupOk : Bool) (u : AuthUser)
    (st : AppState) (hanon : u.isAnonymous = false) :
    (∃ info, (onAuthStateChanged userRoles lookupOk (some u) st).userInfo = some info ∧
      info.role =
        (if lookupOk then
          match userRoles.find? (fun r => r.uid == u.uid) with
          | some r => r.role
          | none => some "customer"
         else some "customer") ∧
      (∀ (earlier later : List RoleDoc) (r : RoleDoc),
        lookupOk = true → userRoles = earlier ++ r :: later → r.uid = u.uid →
        (∀ x ∈ earlier, x.uid ≠ u.uid) → info.role = r.role) ∧
      (lookupOk = true → (∀ x ∈ userRoles, x.uid ≠ u.uid) → info.role = some "customer") ∧
      (lookupOk = false → info.role = some "customer") ∧
      (route (onAuthStateChanged userRoles lookupOk (some u) st) = Screen.adminDashboard ↔
        info.role = some "admin") ∧
      (route (onAuthStateChanged userRoles lookupOk (some u) st) = Screen.schedulerScreen ↔
        info.role ≠ some "admin")) ∧
    (onAuthStateChanged userRoles lookupOk (some u) st).user = some u ∧
    (onAuthStateChanged userRoles lookupOk (some u) st).userId = some u.uid := by
  have hroute : ∀ info : UserInfo,
      (route { st with user := some u, userId := some u.uid, userInfo := some info,
                       isAuthReady := true, loadingAuth := false } = Screen.adminDashboard ↔
        info.role = some "admin") ∧
      (route { st with user := some u, userId := some u.uid, userInfo := some info,
                       isAuthReady := true, loadingAuth := false } = Screen.schedulerScreen ↔
        info.role ≠ some "admin") := by
    intro info
    by_cases hr : info.role = some "admin" <;> simp [route, hr]
  have hnot : ¬ (u.isAnonymous = true) := by simp [hanon]
  have hhead := queryRoles_head userRoles u.uid
  unfold onAuthStateChanged
  dsimp only
  rw [if_neg hnot]
  have hrole : (if lookupOk = true then
        match queryRoles userRoles u.uid with
        | r :: _ => ({ uid := r.uid, email := r.email, role := r.role, id := some r.id } : UserInfo)
        | [] => { uid := u.uid, email := u.email, role := some "customer", id := none }
      else { uid := u.uid, email := u.email, role := some "customer", id := none }).role =
      (if lookupOk then
          match userRoles.find? (fun r => r.uid == u.uid) with
          | some r => r.role
          | none => some "customer"
         else some "customer") := by
    rw [← hhead]
    cases lookupOk with
    | false => simp
    | true =>
      cases hq : queryRoles userRoles u.uid with
      | nil => simp
      | cons r rest => simp
  refine ⟨⟨_, rfl, hrole, ?_, ?_, ?_, hroute _⟩, rfl, rfl⟩
  · intro earlier later r hok hsplit huid hearlier
    rw [hrole, hok, hsplit]
    have hfind : (earlier ++ r :: later).find? (fun r => r.uid == u.uid) = some r := by
      rw [List.find?_eq_some]
      refine ⟨by simpa using huid, earlier, later, rfl, ?_⟩
      intro x hx
      simpa using hearlier x hx
    rw [hfind]
    simp
  · intro hok hnone
    rw [hrole, hok]
    have hfind : userRoles.find? (fun r => r.uid == u.uid) = none := by
      rw [List.find?_eq_none]
      intro x hx
      simpa using hnone x hx
    rw [hfind]
    simp
  · intro hfail
    rw [hrole, hfail]
    simp

/-- Witness for C14: with the records `roleRecords`, where an `admin` record of
another identity comes first and `u1` has a `customer` record before an
`admin` record, the sign-in of `u1` resolves to `customer` and shows the
customer scheduler, and the sign-in of `u0` shows the admin dashboard. -/
theorem role_resolution_witness :
    route (onAuthStateChanged roleRecords true
      (some (AuthUser.mk "u1" "u1@example.com" false)) initialAppState) =
      Screen.schedulerScreen ∧
    route (onAuthStateChanged roleRecords true
      (some (AuthUser.mk "u0" "u0@example.com" false)) initialAppState) =
      Screen.adminDashboard := by
  obtain ⟨⟨info1, _, _, hfirst1, _, _, _, hsched1⟩, _, _⟩ :=
    role_resolution roleRecords true (AuthUser.mk "u1" "u1@example.com" false)
      initialAppState rfl
  obtain ⟨⟨info0, _, _, hfirst0, _, _, hadmin0, _⟩, _, _⟩ :=
    role_resolution roleRecords true (AuthUser.mk "u0" "u0@example.com" false)
      initialAppState rfl
  constructor
  · rw [hsched1]
    rw [hfirst1 [RoleDoc.mk "r0" "u0" "u0@example.com" (some "admin")]
      [RoleDoc.mk "r2" "u1" "u1@example.com" (some "admin")]
      (RoleDoc.mk "r1" "u1" "u1@example.com" (some "customer")) rfl rfl rfl (by decide)]
    decide
  · rw [hadmin0]
    exact hfirst0 []
      [RoleDoc.mk "r1" "u1" "u1@example.com" (some "customer"),
       RoleDoc.mk "r2" "u1" "u1@example.com" (some "admin")]
      (RoleDoc.mk "r0" "u0" "u0@example.com" (some "admin")) rfl rfl rfl (by simp)

/-! ## Selecting a slot -/

/-- A slot that enters the selection in one call of `handleSelectSlot` is the
clicked slot, and the map of that moment did not contain it. -/
theorem handleSelectSlot_added (allBookings : BookingsMap) (st : SchedulerState)
    (slot s : String) (hin : s ∈ (handleSelectSlot allBookings st slot).selectedSlots)
    (hout : s ∉ st.selectedSlots) : s = slot ∧ mapHas allBookings slot = false := by
  unfold handleSelectSlot at hin
  cases hm : mapHas allBookings slot with
  | true =>
    rw [hm] at hin
    exact absurd hin hout
  | false =>
    rw [hm] at hin
    simp only [Bool.false_eq_true, if_false] at hin
    by_cases hc : st.selectedSlots.contains slot = true
    · rw [if_pos hc] at hin
      exact absurd (List.mem_filter.1 hin).1 hout
    · rw [if_neg hc] at hin
      rcases List.mem_append.1 hin with h | h
      · exact absurd h hout
      · exact ⟨by simpa using h, rfl⟩

/-- C15: a click on a slot that is present in the map leaves the selection
unchanged and sets the error `Este horário já está reservado.`; a slot that
enters the selection in a call is the clicked one and was absent from the
map of that call; hence after any run of clicks from an empty selection
every selected slot was clicked at a moment when the map did not contain it. -/
theorem handleSelectSlot_booked (allBookings : BookingsMap) (st : SchedulerState)
    (slot : String) (hbooked : mapHas allBookings slot = true) :
    (handleSelectSlot allBookings st slot).selectedSlots = st.selectedSlots ∧
    (handleSelectSlot allBookings st slot).error = some "Este horário já está reservado." ∧
    (∀ (m : BookingsMap) (st0 : SchedulerState) (clicked s : String),
      s ∈ (handleSelectSlot m st0 clicked).selectedSlots → s ∉ st0.selectedSlots →
        s = clicked ∧ mapHas m clicked = false) ∧
    (∀ (clicks : List (BookingsMap × String)) (s : String),
      s ∈ (selectAll initialSchedulerState clicks).selectedSlots →
        ∃ click ∈ clicks, click.2 = s ∧ mapHas click.1 s = false) := by
  refine ⟨?_, ?_, handleSelectSlot_added, ?_⟩
  · unfold handleSelectSlot
    rw [hbooked]
    rfl
  · unfold handleSelectSlot
    rw [hbooked]
    rfl
  · have hgen : ∀ (clicks : List (BookingsMap × String)) (st0 : SchedulerState) (s : String),
        s ∈ (selectAll st0 clicks).selectedSlots →
          s ∈ st0.selectedSlots ∨ ∃ click ∈ clicks, click.2 = s ∧ mapHas click.1 s = false := by
      intro clicks
      induction clicks with
      | nil =>
        intro st0 s hs
        exact Or.inl hs
      | cons c rest ih =>
        obtain ⟨m, clicked⟩ := c
        intro st0 s hs
        rcases ih (handleSelectSlot m st0 clicked) s hs with h | ⟨click, hmem, h1, h2⟩
        · by_cases hold : s ∈ st0.selectedSlots
          · exact Or.inl hold
          · obtain ⟨he, hf⟩ := handleSelectSlot_added m st0 clicked s h hold
            refine Or.inr ⟨(m, clicked), List.mem_cons_self _ _, he.symm, ?_⟩
            rw [he]
            exact hf
        · exact Or.inr ⟨click, List.mem_cons_of_mem _ hmem, h1, h2⟩
    intro clicks s hs
    rcases hgen clicks initialSchedulerState s hs with h | h
    · simp [initialSchedulerState] at h
    · exact h

/-- Witness for C15: with `09:00` booked in the map of `storeHeldByB`, a click
on `09:00` leaves the selection `10:00` as it is. -/
theorem handleSelectSlot_booked_witness :
    (handleSelectSlot (onSnapshot storeHeldByB)
      { selectedSlots := ["10:00"], error := none, message := none, paymentModalOpen := false }
      "09:00").selectedSlots = ["10:00"] :=
  (handleSelectSlot_booked (onSnapshot storeHeldByB)
    { selectedSlots := ["10:00"], error := none, message := none, paymentModalOpen := false }
    "09:00" (by decide)).1

/-! ## The customer's own bookings -/

theorem codeUnitCompare_nonpos (a b : String) : codeUnitCompare a b ≤ 0 ↔ a ≤ b := by
  unfold codeUnitCompare
  by_cases h1 : a.toList < b.toList
  · rw [if_pos h1]
    have hlt : a < b := String.lt_iff_toList_lt.2 h1
    simp [le_of_lt hlt]
  · rw [if_neg h1]
    have hnlt : ¬ a < b := fun h => h1 (String.lt_iff_toList_lt.1 h)
    by_cases h2 : a = b
    · simp [h2]
    · have hlt : b < a := lt_of_le_of_ne (not_lt.1 hnlt) (Ne.symm h2)
      simp [h2, not_le.2 hlt]

/-! ## The contents of the snapshot map -/

theorem mapSet_keys (m : BookingsMap) (k : String) (v : BookingDoc) :
    (mapSet m k v).map Prod.fst =
      if k ∈ m.map Prod.fst then m.map Prod.fst else m.map Prod.fst ++ [k] := by
  induction m with
  | nil => simp [mapSet]
  | cons p rest ih =>
    obtain ⟨k0, v0⟩ := p
    by_cases h : k0 = k
    · subst h
      simp [mapSet]
    · have hk : ¬ k = k0 := fun e => h e.symm
      by_cases hmem : k ∈ rest.map Prod.fst
      · rw [if_pos hmem] at ih
        have hmem2 : k ∈ ((k0, v0) :: rest).map Prod.fst := by
          simp only [List.map_cons, List.mem_cons]
          exact Or.inr hmem
        rw [if_pos hmem2]
        simp only [mapSet, if_neg h, List.map_cons, ih]
      · rw [if_neg hmem] at ih
        have hmem2 : ¬ k ∈ ((k0, v0) :: rest).map Prod.fst := by
          simp only [List.map_cons, List.mem_cons, not_or]
          exact ⟨hk, hmem⟩
        rw [if_neg hmem2]
        simp only [mapSet, if_neg h, List.map_cons, ih, List.cons_append]

/-- Folding documents into a map keeps the keys distinct and adds exactly the
slot labels of the documents. -/
theorem foldl_mapSet_keys (docs : List BookingDoc) (m : BookingsMap)
    (hm : (m.map Prod.fst).Nodup) :
    ((docs.foldl (fun bookingsMap doc => mapSet bookingsMap doc.data.slot doc) m).map
        Prod.fst).Nodup ∧
    ∀ k, k ∈ (docs.foldl (fun bookingsMap doc => mapSet bookingsMap doc.data.slot doc) m).map
        Prod.fst ↔ k ∈ m.map Prod.fst ∨ k ∈ docs.map (fun doc => doc.data.slot) := by
  induction docs generalizing m with
  | nil => simp [hm]
  | cons d rest ih =>
    have hstep : ((mapSet m d.data.slot d).map Prod.fst).Nodup := by
      rw [mapSet_keys]
      by_cases hmem : d.data.slot ∈ m.map Prod.fst
      · rw [if_pos hmem]; exact hm
      · rw [if_neg hmem]
        exact List.Nodup.append hm (List.nodup_singleton _)
          (by
            intro a ha hb
            rw [List.mem_singleton] at hb
            exact hmem (hb ▸ ha))
    have hkeys : ∀ k, k ∈ (mapSet m d.data.slot d).map Prod.fst ↔
        k ∈ m.map Prod.fst ∨ k = d.data.slot := by
      intro k
      rw [mapSet_keys]
      by_cases hmem : d.data.slot ∈ m.map Prod.fst
      · rw [if_pos hmem]
        constructor
        · exact Or.inl
        · rintro (h | h)
          · exact h
          · rw [h]; exact hmem
      · rw [if_neg hmem]
        simp
    obtain ⟨h1, h2⟩ := ih (mapSet m d.data.slot d) hstep
    rw [List.foldl_cons]
    refine ⟨h1, fun k => ?_⟩
    rw [h2 k, hkeys k]
    simp only [List.map_cons, List.mem_cons]
    tauto

/-- The number of entries of the snapshot map is the number of distinct slot
labels in the snapshot. -/
theorem onSnapshot_length (docs : List BookingDoc) :
    (onSnapshot docs).length = ((docs.map (fun doc => doc.data.slot)).dedup).length := by
  obtain ⟨hnodup, hmem⟩ := foldl_mapSet_keys docs [] (by simp)
  have hperm : List.Perm ((onSnapshot docs).map Prod.fst)
      ((docs.map (fun doc => doc.data.slot)).dedup) := by
    unfold onSnapshot
    rw [List.perm_ext_iff_of_nodup hnodup (List.nodup_dedup _)]
    intro k
    rw [List.mem_dedup, hmem k]
    simp
  have := hperm.length_eq
  simpa using this

/-- C17: the map built from a snapshot has a key for slot `s` iff some record
of the snapshot has slot `s`; its value for `s` is the last such record in
snapshot order, the document with its id; the map has at most as many
entries as the snapshot has records, and strictly fewer exactly when two
records share a slot. -/
theorem onSnapshot_contents (docs : List BookingDoc) (s : String) :
    (mapHas (onSnapshot docs) s = true ↔ ∃ doc ∈ docs, doc.data.slot = s) ∧
    mapGet (onSnapshot docs) s =
      (docs.filter (fun doc => doc.data.slot == s)).getLast? ∧
    (onSnapshot docs).length ≤ docs.length ∧
    ((onSnapshot docs).length < docs.length ↔
      ¬ (docs.map (fun doc => doc.data.slot)).Nodup) := by
  have hsub := List.dedup_sublist (docs.map (fun doc => doc.data.slot))
  have hle : ((docs.map (fun doc => doc.data.slot)).dedup).length ≤ docs.length := by
    simpa using hsub.length_le
  refine ⟨?_, mapGet_onSnapshot docs s, ?_, ?_⟩
  · have h := isBooked_onSnapshot_eq_false docs s
    unfold isBooked at h
    constructor
    · intro ht
      by_contra hne
      have hf := h.2 (fun doc hdoc hs => hne ⟨doc, hdoc, hs⟩)
      rw [ht] at hf
      exact absurd hf (by decide)
    · rintro ⟨doc, hdoc, hs⟩
      cases hb : mapHas (onSnapshot docs) s with
      | true => rfl
      | false => exact absurd hs (h.1 hb doc hdoc)
  · rw [onSnapshot_length]
    exact hle
  · rw [onSnapshot_length]
    constructor
    · intro hlt hnodup
      rw [hnodup.dedup] at hlt
      simp at hlt
    · intro hnot
      rcases Nat.lt_or_ge ((docs.map (fun doc => doc.data.slot)).dedup).length docs.length
        with h | h
      · exact h
      · exfalso
        apply hnot
        have heq : ((docs.map (fun doc => doc.data.slot)).dedup).length =
            (docs.map (fun doc => doc.data.slot)).length := by
          simp only [List.length_map]
          omega
        rw [← List.dedup_eq_self]
        exact hsub.eq_of_length heq

/-! ## Toggling a free slot -/

theorem handleSelectSlot_free (allBookings : BookingsMap) (st : SchedulerState)
    (slot : String) (hfree : mapHas allBookings slot = false) :
    (handleSelectSlot allBookings st slot).selectedSlots =
      if slot ∈ st.selectedSlots then st.selectedSlots.filter (fun s => s != slot)
      else st.selectedSlots ++ [slot] := by
  unfold handleSelectSlot
  rw [hfree]
  by_cases h : slot ∈ st.selectedSlots <;> simp [h]

/-- C18: for a duplicate-free selection and a slot absent from the map,
`handleSelectSlot` appends the slot at the end when it was not selected and
removes it when it was; the other slots keep their membership and their
relative order; the result is duplicate-free and the error is cleared; and
two calls on a selection without the slot give the selection back. -/
theorem handleSelectSlot_toggle (allBookings : BookingsMap) (st : SchedulerState)
    (slot : String) (hnodup : st.selectedSlots.Nodup)
    (hfree : mapHas allBookings slot = false) :
    (slot ∉ st.selectedSlots →
      (handleSelectSlot allBookings st slot).selectedSlots = st.selectedSlots ++ [slot]) ∧
    (slot ∈ st.selectedSlots →
      (handleSelectSlot allBookings st slot).selectedSlots =
        st.selectedSlots.filter (fun s => s != slot)) ∧
    (slot ∈ (handleSelectSlot allBookings st slot).selectedSlots ↔ slot ∉ st.selectedSlots) ∧
    (∀ s, s ≠ slot →
      (s ∈ (handleSelectSlot allBookings st slot).selectedSlots ↔ s ∈ st.selectedSlots)) ∧
    (handleSelectSlot allBookings st slot).selectedSlots.filter (fun s => s != slot) =
      st.selectedSlots.filter (fun s => s != slot) ∧
    (handleSelectSlot allBookings st slot).selectedSlots.Nodup ∧
    (handleSelectSlot allBookings st slot).error = none ∧
    (slot ∉ st.selectedSlots →
      (handleSelectSlot allBookings (handleSelectSlot allBookings st slot) slot).selectedSlots =
        st.selectedSlots) := by
  have hsel := handleSelectSlot_free allBookings st slot hfree
  have herr : (handleSelectSlot allBookings st slot).error = none := by
    unfold handleSelectSlot
    rw [hfree]
    rfl
  have hfilter : ∀ l : List String, slot ∉ l → l.filter (fun s => s != slot) = l := by
    intro l hl
    rw [List.filter_eq_self]
    intro a ha
    have : a ≠ slot := fun e => hl (e ▸ ha)
    simpa using this
  by_cases hmem : slot ∈ st.selectedSlots
  · rw [if_pos hmem] at hsel
    rw [hsel]
    refine ⟨fun h => absurd hmem h, fun _ => rfl, ?_, ?_, ?_, ?_, herr, fun h => absurd hmem h⟩
    · simp [List.mem_filter, hmem]
    · intro s hs
      simp [List.mem_filter, hs]
    · simp [List.filter_filter]
    · exact hnodup.filter _
  · rw [if_neg hmem] at hsel
    refine ⟨fun _ => hsel, fun h => absurd h hmem, ?_, ?_, ?_, ?_, herr, ?_⟩
    · rw [hsel]
      simp [hmem]
    · intro s hs
      rw [hsel]
      simp [hs]
    · rw [hsel]
      simp [List.filter_append]
    · rw [hsel]
      refine List.Nodup.append hnodup (List.nodup_singleton _) ?_
      intro a ha hb
      rw [List.mem_singleton] at hb
      exact hmem (hb ▸ ha)
    · intro _
      have hsel2 := handleSelectSlot_free allBookings (handleSelectSlot allBookings st slot)
        slot hfree
      rw [hsel2, hsel]
      have hin : slot ∈ st.selectedSlots ++ [slot] := by simp
      rw [if_pos hin, List.filter_append, hfilter _ hmem]
      simp

/-- Witness for C18: with an empty map, a click on `10:00` removes it from
the selection `09:00`, `10:00`, `11:00`. -/
theorem handleSelectSlot_toggle_witness :
    (handleSelectSlot []
      { selectedSlots := ["09:00", "10:00", "11:00"], error := none, message := none,
        paymentModalOpen := false } "10:00").selectedSlots.Nodup ∧
    (handleSelectSlot []
      { selectedSlots := ["09:00", "10:00", "11:00"], error := none, message := none,
        paymentModalOpen := false } "10:00").selectedSlots =
      ["09:00", "10:00", "11:00"].filter (fun s => s != "10:00") :=
  have h := handleSelectSlot_toggle []
    { selectedSlots := ["09:00", "10:00", "11:00"], error := none, message := none,
      paymentModalOpen := false } "10:00" (by decide) rfl
  ⟨h.2.2.2.2.2.1, h.2.1 (by decide)⟩

/-! ## The total of a selection -/

theorem digitValue_digitChar : ∀ k < 10, digitValue (Nat.digitChar k) = some k := by
  decide

theorem toDigitsCore_append (fuel n : Nat) (ds : List Char) :
    Nat.toDigitsCore 10 fuel n ds = Nat.toDigitsCore 10 fuel n [] ++ ds := by
  induction fuel generalizing n ds with
  | zero => simp [Nat.toDigitsCore]
  | succ fuel ih =>
    simp only [Nat.toDigitsCore]
    by_cases h : n / 10 = 0
    · simp [h]
    · rw [if_neg h, if_neg h, ih (n / 10) (Nat.digitChar (n % 10) :: ds),
        ih (n / 10) [Nat.digitChar (n % 10)]]
      simp

theorem parseDigitsFrom_append (acc : Nat) (a b : List Char) :
    parseDigitsFrom acc (a ++ b) =
      (parseDigitsFrom acc a).bind (fun n => parseDigitsFrom n b) := by
  induction a generalizing acc with
  | nil => simp [parseDigitsFrom]
  | cons c rest ih =>
    simp only [List.cons_append, parseDigitsFrom]
    cases digitValue c with
    | none => simp
    | some d => simp [ih]

theorem parseDigitsFrom_toDigitsCore (fuel n : Nat) (h : n < fuel) :
    parseDigitsFrom 0 (Nat.toDigitsCore 10 fuel n []) = some n := by
  induction fuel generalizing n with
  | zero => omega
  | succ fuel ih =>
    simp only [Nat.toDigitsCore]
    have hd := digitValue_digitChar (n % 10) (Nat.mod_lt n (by decide))
    by_cases h0 : n / 10 = 0
    · rw [if_pos h0]
      simp only [parseDigitsFrom, hd]
      congr 1
      omega
    · rw [if_neg h0, toDigitsCore_append, parseDigitsFrom_append,
        ih (n / 10) (by omega)]
      simp only [Option.some_bind, parseDigitsFrom, hd]
      congr 1
      omega

theorem parseDigitsFrom_toString (n : Nat) :
    parseDigitsFrom 0 (toString n).toList = some n := by
  have : (toString n).toList = Nat.toDigitsCore 10 (n + 1) n [] := rfl
  rw [this]
  exact parseDigitsFrom_toDigitsCore (n + 1) n (by omega)

theorem parseDigitsFrom_zeros (k : Nat) (l : List Char) :
    parseDigitsFrom 0 (List.replicate k '0' ++ l) = parseDigitsFrom 0 l := by
  have h0 : digitValue '0' = some 0 := by decide
  induction k with
  | zero => simp
  | succ k ih =>
    simp only [List.replicate_succ, List.cons_append, parseDigitsFrom, h0]
    exact ih

theorem parseDigitsFrom_shift (acc : Nat) (l : List Char) :
    parseDigitsFrom acc l =
      (parseDigitsFrom 0 l).map (fun b => acc * 10 ^ l.length + b) := by
  induction l generalizing acc with
  | nil => simp [parseDigitsFrom]
  | cons c rest ih =>
    simp only [parseDigitsFrom]
    cases digitValue c with
    | none => simp
    | some d =>
      simp only
      rw [ih (10 * acc + d), ih (10 * 0 + d)]
      cases parseDigitsFrom 0 rest with
      | none => simp
      | some b =>
        simp only [Option.map_some', List.length_cons, Option.some.injEq]
        ring

theorem no_point_of_parseDigitsFrom (acc : Nat) (l : List Char) (v : Nat)
    (h : parseDigitsFrom acc l = some v) : ∀ c ∈ l, (c != '.') = true := by
  have hp : digitValue '.' = none := by decide
  induction l generalizing acc with
  | nil => simp
  | cons c rest ih =>
    simp only [parseDigitsFrom] at h
    cases hd : digitValue c with
    | none => rw [hd] at h; simp at h
    | some d =>
      rw [hd] at h
      intro x hx
      rcases List.mem_cons.1 hx with hx | hx
      · subst hx
        have : x ≠ '.' := by
          intro e
          rw [e, hp] at hd
          simp at hd
        simpa using this
      · exact ih _ h x hx

theorem takeWhile_point (a b : List Char) (ha : ∀ c ∈ a, (c != '.') = true) :
    (a ++ '.' :: b).takeWhile (fun c => c != '.') = a ∧
    (a ++ '.' :: b).dropWhile (fun c => c != '.') = '.' :: b := by
  induction a with
  | nil => simp [List.takeWhile, List.dropWhile]
  | cons c rest ih =>
    have hc := ha c (List.mem_cons_self _ _)
    have ih2 := ih (fun x hx => ha x (List.mem_cons_of_mem _ hx))
    simp only [List.cons_append, List.takeWhile_cons, List.dropWhile_cons, hc, if_true]
    exact ⟨by rw [ih2.1], ih2.2⟩

/-- Reading back a digit string with the point put before its last two
digits gives the value of the digit string divided by 100. -/
theorem parseFloat_point (l : List Char) (n : Nat) (hl : 2 ≤ l.length)
    (hparse : parseDigitsFrom 0 l = some n) :
    parseFloat (String.mk (l.take (l.length - 2)) ++ "." ++ String.mk (l.drop (l.length - 2))) =
      some ((n : ℚ) / 100) := by
  have hsplit : l.take (l.length - 2) ++ l.drop (l.length - 2) = l := List.take_append_drop _ _
  have hlen : (l.drop (l.length - 2)).length = 2 := by
    rw [List.length_drop]; omega
  rw [← hsplit, parseDigitsFrom_append] at hparse
  cases ha : parseDigitsFrom 0 (l.take (l.length - 2)) with
  | none => rw [ha] at hparse; simp at hparse
  | some a =>
    rw [ha, Option.some_bind, parseDigitsFrom_shift] at hparse
    cases hb : parseDigitsFrom 0 (l.drop (l.length - 2)) with
    | none => rw [hb] at hparse; simp at hparse
    | some b =>
      rw [hb, hlen] at hparse
      simp only [Option.map_some', Option.some.injEq] at hparse
      have hnp := no_point_of_parseDigitsFrom 0 _ a ha
      have htd := takeWhile_point (l.take (l.length - 2)) (l.drop (l.length - 2)) hnp
      have hlist : (String.mk (l.take (l.length - 2)) ++ "." ++
          String.mk (l.drop (l.length - 2))).toList =
          l.take (l.length - 2) ++ '.' :: l.drop (l.length - 2) := by
        simp [String.toList, String.data_append]
      unfold parseFloat
      simp only [hlist, htd.1, htd.2, ha, hb, hlen]
      congr 1
      rw [← hparse]
      push_cast
      ring

theorem parseFloat_toFixed2 (x : ℚ) :
    parseFloat (toFixed2 x) = some (((⌊x * 100 + 1 / 2⌋).toNat : ℚ) / 100) := by
  unfold toFixed2
  simp only []
  have hround := parseDigitsFrom_toString (⌊x * 100 + 1 / 2⌋).toNat
  by_cases hshort : (toString (⌊x * 100 + 1 / 2⌋).toNat).length ≤ 2
  · rw [if_pos hshort]
    have hdata : (padStart (toString (⌊x * 100 + 1 / 2⌋).toNat) 3 '0').toList =
        List.replicate (3 - (toString (⌊x * 100 + 1 / 2⌋).toNat).length) '0' ++
          (toString (⌊x * 100 + 1 / 2⌋).toNat).toList := by
      simp [padStart, String.toList, String.data_append]
    have hlen : (padStart (toString (⌊x * 100 + 1 / 2⌋).toNat) 3 '0').length =
        (padStart (toString (⌊x * 100 + 1 / 2⌋).toNat) 3 '0').toList.length := rfl
    rw [hlen]
    apply parseFloat_point
    · rw [hdata, List.length_append, List.length_replicate]
      have : (toString (⌊x * 100 + 1 / 2⌋).toNat).toList.length =
          (toString (⌊x * 100 + 1 / 2⌋).toNat).length := rfl
      omega
    · rw [hdata, parseDigitsFrom_zeros]
      exact hround
  · rw [if_neg hshort]
    have hlen : (toString (⌊x * 100 + 1 / 2⌋).toNat).length =
        (toString (⌊x * 100 + 1 / 2⌋).toNat).toList.length := rfl
    rw [hlen]
    apply parseFloat_point
    · rw [← hlen]; omega
    · exact hround

theorem bookingRecords_price_sum (selectedSlots : List String)
    (selectedDate userId userEmail paymentMethod : String) (now : Nat) :
    ((bookingRecords selectedSlots selectedDate userId userEmail paymentMethod now).map
      (fun r => r.price)).sum = (selectedSlots.length : ℚ) * (135 / 2) := by
  induction selectedSlots with
  | nil => simp [bookingRecords]
  | cons slot rest ih =>
    unfold bookingRecords at ih ⊢
    simp only [List.map_cons, List.sum_cons, ih, List.length_cons]
    simp only [bookingRecord, PRECO_POR_BLOCO_30_MIN]
    push_cast
    ring

/-- C19: for every selection, the amount handed to the payment modal, which
is `parseFloat` of the two-decimal string of `n * 67.5` for `n` selected
slots, is exactly `n * 67.50`, and it is the sum of the prices of the records
that `handleProcessPayment` builds for the selection; for two slots the
string shown is `135.00`. -/
theorem totalAmount_exact (selectedSlots : List String)
    (selectedDate userId userEmail paymentMethod : String) (now : Nat) :
    totalAmount selectedSlots = some ((selectedSlots.length : ℚ) * 67.5) ∧
    totalAmount selectedSlots =
      some (((bookingRecords selectedSlots selectedDate userId userEmail paymentMethod now).map
        (fun r => r.price)).sum) ∧
    totalReserva ["09:00", "09:30"] = "135.00" := by
  have hamount : totalAmount selectedSlots =
      some ((selectedSlots.length : ℚ) * (135 / 2)) := by
    unfold totalAmount totalReserva
    rw [parseFloat_toFixed2]
    have hfloor : ⌊(selectedSlots.length : ℚ) * PRECO_POR_BLOCO_30_MIN * 100 + 1 / 2⌋ =
        ((6750 * selectedSlots.length : Nat) : Int) := by
      rw [Int.floor_eq_iff]
      unfold PRECO_POR_BLOCO_30_MIN
      push_cast
      constructor <;> linarith
    rw [hfloor, Int.toNat_ofNat]
    congr 1
    push_cast
    ring
  refine ⟨?_, ?_, ?_⟩
  · rw [hamount]
    congr 1
    norm_num
  · rw [hamount, bookingRecords_price_sum]
  · have hfloor :
        ⌊((["09:00", "09:30"].length : ℕ) : ℚ) * PRECO_POR_BLOCO_30_MIN * 100 + 1 / 2⌋
          = 13500 := by
      rw [Int.floor_eq_iff]
      norm_num [PRECO_POR_BLOCO_30_MIN]
    unfold totalReserva toFixed2
    simp only [hfloor]
    decide

/-! ## Paid and pending totals together -/

/-- C20: when every reservation of the list has status `pago` or `pendente`,
the paid total plus the pending total is the sum of all prices; every record
built by `handleProcessPayment` has one of the two statuses; and a
reservation with any other status adds to neither total. -/
theorem revenue_partition (allBookings : List BookingDoc)
    (hstatus : ∀ b ∈ allBookings,
      b.data.paymentStatus = "pago" ∨ b.data.paymentStatus = "pendente") :
    totalRevenue allBookings + pendingRevenue allBookings =
      (allBookings.map (fun b => b.data.price)).sum ∧
    (∀ (selectedSlots : List String) (selectedDate userId userEmail paymentMethod : String)
        (now : Nat),
      ∀ r ∈ bookingRecords selectedSlots selectedDate userId userEmail paymentMethod now,
        r.paymentStatus = "pago" ∨ r.paymentStatus = "pendente") ∧
    (∀ (before after : List BookingDoc) (b : BookingDoc),
      b.data.paymentStatus ≠ "pago" → b.data.paymentStatus ≠ "pendente" →
        totalRevenue (before ++ b :: after) = totalRevenue (before ++ after) ∧
        pendingRevenue (before ++ b :: after) = pendingRevenue (before ++ after)) := by
  have hne : ("pendente" : String) ≠ "pago" := by decide
  refine ⟨?_, ?_, ?_⟩
  · unfold totalRevenue pendingRevenue
    rw [foldl_revenue, foldl_revenue]
    simp only [zero_add]
    induction allBookings with
    | nil => simp
    | cons b rest ih =>
      have ih2 := ih (fun x hx => hstatus x (List.mem_cons_of_mem _ hx))
      rcases hstatus b (List.mem_cons_self _ _) with h | h
      · simp only [List.filter_cons, h, beq_self_eq_true, if_true, beq_iff_eq,
          if_neg hne.symm, List.map_cons, List.sum_cons]
        rw [← ih2]
        ring
      · simp only [List.filter_cons, h, beq_self_eq_true, if_true, beq_iff_eq,
          if_neg hne, List.map_cons, List.sum_cons]
        rw [← ih2]
        ring
  · intro selectedSlots selectedDate userId userEmail paymentMethod now r hr
    obtain ⟨slot, _, hslot⟩ := List.mem_map.1 hr
    rw [← hslot]
    simp only [bookingRecord]
    unfold computePaymentStatus
    by_cases hpaid : paymentMethod = "cartao" ∨ paymentMethod = "pix"
    · exact Or.inl (by simp [hpaid])
    · by_cases hlocal : paymentMethod = "local"
      · exact Or.inr (by simp [hpaid, hlocal])
      · exact Or.inr (by simp [hpaid, hlocal])
  · intro before after b h1 h2
    unfold totalRevenue pendingRevenue
    rw [foldl_revenue, foldl_revenue, foldl_revenue, foldl_revenue]
    simp [List.filter_append, List.filter_cons, h1, h2]

/-- Witness for C20: for the two paid records of `commitByA` the paid and the
pending total add up to the sum of the prices. -/
theorem revenue_partition_witness :
    totalRevenue commitByA.store + pendingRevenue commitByA.store =
      (commitByA.store.map (fun b => b.data.price)).sum :=
  (revenue_partition commitByA.store (by
    have hstatus : computePaymentStatus "cartao" = "pago" := by decide
    simp [commitByA, handleProcessPayment, bookingRecords, addDocs, bookingRecord, hstatus,
      List.reduceOption])).1

/-! ## The own-bookings list against the map and the snapshot -/

theorem mem_mapSet (m : BookingsMap) (k : String) (v : BookingDoc) (p : String × BookingDoc)
    (hp : p ∈ mapSet m k v) : p = (k, v) ∨ p ∈ m := by
  induction m with
  | nil =>
    simp only [mapSet, List.mem_singleton] at hp
    exact Or.inl hp
  | cons q rest ih =>
    obtain ⟨k0, v0⟩ := q
    by_cases h : k0 = k
    · simp only [mapSet, if_pos h, List.mem_cons] at hp
      rcases hp with hp | hp
      · exact Or.inl hp
      · exact Or.inr (List.mem_cons_of_mem _ hp)
    · simp only [mapSet, if_neg h, List.mem_cons] at hp
      rcases hp with hp | hp
      · exact Or.inr (hp ▸ List.mem_cons_self _ _)
      · rcases ih hp with h1 | h1
        · exact Or.inl h1
        · exact Or.inr (List.mem_cons_of_mem _ h1)

/-- Every entry of the snapshot map is stored under the slot of its value. -/
theorem onSnapshot_key_slot (docs : List BookingDoc) :
    ∀ p ∈ onSnapshot docs, p.1 = p.2.data.slot := by
  have hgen : ∀ (docs : List BookingDoc) (m : BookingsMap),
      (∀ p ∈ m, p.1 = p.2.data.slot) →
      ∀ p ∈ docs.foldl (fun bookingsMap doc => mapSet bookingsMap doc.data.slot doc) m,
        p.1 = p.2.data.slot := by
    intro docs
    induction docs with
    | nil => intro m hm; simpa using hm
    | cons d rest ih =>
      intro m hm
      rw [List.foldl_cons]
      apply ih
      intro p hp
      rcases mem_mapSet m d.data.slot d p hp with h | h
      · rw [h]
      · exact hm p h
  exact hgen docs [] (by simp)

theorem mem_of_mapGet (m : BookingsMap) (k : String) (b : BookingDoc)
    (h : mapGet m k = some b) : (k, b) ∈ m := by
  induction m with
  | nil => simp [mapGet] at h
  | cons q rest ih =>
    obtain ⟨k0, v0⟩ := q
    by_cases hk : k0 = k
    · simp only [mapGet, if_pos hk, Option.some.injEq] at h
      rw [hk, h]
      exact List.mem_cons_self _ _
    · simp only [mapGet, if_neg hk] at h
      exact List.mem_cons_of_mem _ (ih h)

theorem mapGet_of_mem (m : BookingsMap) (hm : (m.map Prod.fst).Nodup) (k : String)
    (b : BookingDoc) (h : (k, b) ∈ m) : mapGet m k = some b := by
  induction m with
  | nil => simp at h
  | cons q rest ih =>
    obtain ⟨k0, v0⟩ := q
    simp only [List.map_cons, List.nodup_cons] at hm
    rcases List.mem_cons.1 h with h1 | h1
    · have hk : k0 = k := (congrArg Prod.fst h1).symm
      have hv : v0 = b := (congrArg Prod.snd h1).symm
      simp [mapGet, hk, hv]
    · have hne : ¬ k0 = k := by
        intro e
        apply hm.1
        rw [e]
        exact List.mem_map.2 ⟨(k, b), h1, rfl⟩
      simp only [mapGet, if_neg hne]
      exact ih hm.2 h1

/-- The values of the snapshot map are the records that are the last of their
slot in the snapshot. -/
theorem mem_mapValues_onSnapshot (docs : List BookingDoc) (b : BookingDoc) :
    b ∈ mapValues (onSnapshot docs) ↔
      (docs.filter (fun doc => doc.data.slot == b.data.slot)).getLast? = some b := by
  rw [← mapGet_onSnapshot]
  have hnodup : ((onSnapshot docs).map Prod.fst).Nodup :=
    (foldl_mapSet_keys docs [] (by simp)).1
  constructor
  · intro hb
    obtain ⟨p, hp, hpb⟩ := List.mem_map.1 hb
    have hkey := onSnapshot_key_slot docs p hp
    have hpair : (b.data.slot, b) ∈ onSnapshot docs := by
      have : p = (b.data.slot, b) := by
        rw [← hpb, ← hkey]
      rw [← this]
      exact hp
    exact mapGet_of_mem _ hnodup _ _ hpair
  · intro hget
    exact List.mem_map.2 ⟨(b.data.slot, b), mem_of_mapGet _ _ _ hget, rfl⟩

/-- C16: for a comparator that is total and transitive, as `localeCompare` is
required to be: `myBookings` contains exactly the reservations that are
values of some entry of the map and have the viewer as `userId`, each as
often as among the entries; for the map built from a snapshot these are the
records that are the last of their slot in the snapshot and owned by the
viewer, and no slot occurs twice in the list; the list is in ascending order
of the slot labels under the comparator, and in ascending string order of
the labels whenever the comparator orders the labels of the map as the
strings are ordered.  For `mixedStore` and `user-a` under the code-unit
comparator the list is `d4` (09:00), `d3` (09:30), `d1` (10:30). -/
theorem myBookings_contents (localeCompare : String → String → Int)
    (allBookings : BookingsMap) (docs : List BookingDoc) (userId : String)
    (htotal : ∀ a b, localeCompare a b ≤ 0 ∨ localeCompare b a ≤ 0)
    (htrans : ∀ a b c, localeCompare a b ≤ 0 → localeCompare b c ≤ 0 →
      localeCompare a c ≤ 0) :
    (∀ b, b ∈ myBookings localeCompare allBookings userId ↔
      (∃ k, (k, b) ∈ allBookings) ∧ b.data.userId = userId) ∧
    List.Perm (myBookings localeCompare allBookings userId)
      ((allBookings.map Prod.snd).filter (fun booking => booking.data.userId == userId)) ∧
    (∀ b, b ∈ myBookings localeCompare (onSnapshot docs) userId ↔
      (docs.filter (fun doc => doc.data.slot == b.data.slot)).getLast? = some b ∧
        b.data.userId = userId) ∧
    ((myBookings localeCompare (onSnapshot docs) userId).map
      (fun b => b.data.slot)).Nodup ∧
    List.Sorted (fun a b => localeCompare a.data.slot b.data.slot ≤ 0)
      (myBookings localeCompare allBookings userId) ∧
    ((∀ a ∈ allBookings.map (fun p => p.2.data.slot),
        ∀ b ∈ allBookings.map (fun p => p.2.data.slot),
          (localeCompare a b ≤ 0 ↔ a ≤ b)) →
      List.Sorted (fun a b => a.data.slot ≤ b.data.slot)
        (myBookings localeCompare allBookings userId)) ∧
    (myBookings codeUnitCompare (onSnapshot mixedStore) "user-a").map
        (fun b => (b.id, b.data.slot)) =
      [("d4", "09:00"), ("d3", "09:30"), ("d1", "10:30")] := by
  have hmem : ∀ (m : BookingsMap) (b : BookingDoc),
      b ∈ myBookings localeCompare m userId ↔
        (∃ k, (k, b) ∈ m) ∧ b.data.userId = userId := by
    intro m b
    rw [mem_myBookings]
    unfold mapValues
    constructor
    · rintro ⟨hb, hu⟩
      obtain ⟨p, hp, hpb⟩ := List.mem_map.1 hb
      exact ⟨⟨p.1, by rw [← hpb]; exact hp⟩, hu⟩
    · rintro ⟨⟨k, hk⟩, hu⟩
      exact ⟨List.mem_map.2 ⟨(k, b), hk, rfl⟩, hu⟩
  have hsorted : List.Sorted (fun a b => localeCompare a.data.slot b.data.slot ≤ 0)
      (myBookings localeCompare allBookings userId) := by
    have itotal : IsTotal BookingDoc
        (fun a b => localeCompare a.data.slot b.data.slot ≤ 0) :=
      ⟨fun a b => htotal a.data.slot b.data.slot⟩
    have itrans : IsTrans BookingDoc
        (fun a b => localeCompare a.data.slot b.data.slot ≤ 0) :=
      ⟨fun a b c => htrans a.data.slot b.data.slot c.data.slot⟩
    exact List.sorted_insertionSort _ _
  refine ⟨hmem allBookings, ?_, ?_, ?_, hsorted, ?_, by decide⟩
  · exact List.perm_insertionSort _ _
  · intro b
    rw [mem_myBookings, mem_mapValues_onSnapshot]
  · have hperm : List.Perm (myBookings localeCompare (onSnapshot docs) userId)
        ((mapValues (onSnapshot docs)).filter
          (fun booking => booking.data.userId == userId)) := List.perm_insertionSort _ _
    have hkeys : (mapValues (onSnapshot docs)).map (fun b => b.data.slot) =
        (onSnapshot docs).map Prod.fst := by
      unfold mapValues
      rw [List.map_map]
      apply List.map_congr_left
      intro p hp
      exact (onSnapshot_key_slot docs p hp).symm
    have hnodup : ((mapValues (onSnapshot docs)).map (fun b => b.data.slot)).Nodup := by
      rw [hkeys]
      exact (foldl_mapSet_keys docs [] (by simp)).1
    have hsub : List.Sublist
        (((mapValues (onSnapshot docs)).filter
          (fun booking => booking.data.userId == userId)).map (fun b => b.data.slot))
        ((mapValues (onSnapshot docs)).map (fun b => b.data.slot)) :=
      (List.filter_sublist _).map _
    exact ((hperm.map (fun b => b.data.slot)).nodup_iff).2 (hnodup.sublist hsub)
  · intro hagree
    refine hsorted.imp_of_mem ?_
    intro x y hx hy hxy
    have hslot : ∀ z, z ∈ myBookings localeCompare allBookings userId →
        z.data.slot ∈ allBookings.map (fun p => p.2.data.slot) := by
      intro z hz
      obtain ⟨⟨k, hk⟩, _⟩ := (hmem allBookings z).1 hz
      exact List.mem_map.2 ⟨(k, z), hk, rfl⟩
    exact (hagree _ (hslot x hx) _ (hslot y hy)).1 hxy

/-- Witness for C16: for `mixedStore` and the code-unit comparator, the own
bookings of `user-a` are in ascending string order of their slots; they
contain `d4`, the last record for `09:00`, and no record of `user-b`. -/
theorem myBookings_contents_witness :
    List.Sorted (fun a b => a.data.slot ≤ b.data.slot)
      (myBookings codeUnitCompare (onSnapshot mixedStore) "user-a") ∧
    mixedDoc4 ∈ myBookings codeUnitCompare (onSnapshot mixedStore) "user-a" ∧
    (∀ b ∈ myBookings codeUnitCompare (onSnapshot mixedStore) "user-a",
      b.data.userId = "user-a") :=
  have h := myBookings_contents codeUnitCompare (onSnapshot mixedStore) mixedStore "user-a"
    (fun a b => by
      rw [codeUnitCompare_nonpos, codeUnitCompare_nonpos]
      exact le_total a b)
    (fun a b c => by
      rw [codeUnitCompare_nonpos, codeUnitCompare_nonpos, codeUnitCompare_nonpos]
      exact le_trans)
  ⟨h.2.2.2.2.2.1 (fun a _ b _ => codeUnitCompare_nonpos a b),
   (h.2.2.1 mixedDoc4).2 ⟨rfl, rfl⟩,
   fun b hb => ((h.2.2.1 b).1 hb).2⟩

end AgendaQuadra
